import Mathlib

/-!
# Verification of the marksheet extraction core (`app.py`)

This file embeds the parsing core of the PDF marksheet extractor as
executable Lean definitions and proves properties about them.

The embedding works at the level the Python code works at after PDF text
extraction: an input is a list of per-page plain-text strings.  Regular
expressions from the source are embedded as explicit character-level
matchers with the same semantics (case-insensitive literals, greedy and
non-greedy captures, optional groups with backtracking).  The character
model is ASCII: `str.lower`, `str.upper`, `str.capitalize` and the regex
character classes are modelled on ASCII characters, which covers every
character the patterns can match.
-/

set_option maxRecDepth 20000

namespace PdfExtract

/-! ## ASCII character helpers (model of Python case operations) -/

/-- ASCII lowercasing: `A`–`Z` maps to `a`–`z`, everything else unchanged. -/
def lowerChar (c : Char) : Char :=
  if 65 ≤ c.toNat ∧ c.toNat ≤ 90 then Char.ofNat (c.toNat + 32) else c

/-- ASCII uppercasing: `a`–`z` maps to `A`–`Z`, everything else unchanged. -/
def upperChar (c : Char) : Char :=
  if 97 ≤ c.toNat ∧ c.toNat ≤ 122 then Char.ofNat (c.toNat - 32) else c

theorem toNat_ofNat_valid (n : Nat) (h : n.isValidChar) : (Char.ofNat n).toNat = n := by
  unfold Char.ofNat
  rw [dif_pos h]
  rfl

theorem valid_of_le (n : Nat) (h : n ≤ 200) : n.isValidChar := by
  unfold Nat.isValidChar
  omega

theorem upperChar_lowerChar (c : Char) : upperChar (lowerChar c) = upperChar c := by
  unfold lowerChar upperChar
  by_cases h : 65 ≤ c.toNat ∧ c.toNat ≤ 90
  · simp only [if_pos h]
    have ht : (Char.ofNat (c.toNat + 32)).toNat = c.toNat + 32 :=
      toNat_ofNat_valid _ (valid_of_le _ (by omega))
    rw [ht]
    rw [if_pos (by omega), if_neg (by omega)]
    have h2 : c.toNat + 32 - 32 = c.toNat := by omega
    rw [h2, Char.ofNat_toNat]
  · simp only [if_neg h]

theorem lowerChar_lowerChar (c : Char) : lowerChar (lowerChar c) = lowerChar c := by
  unfold lowerChar
  by_cases h : 65 ≤ c.toNat ∧ c.toNat ≤ 90
  · simp only [if_pos h]
    have ht : (Char.ofNat (c.toNat + 32)).toNat = c.toNat + 32 :=
      toNat_ofNat_valid _ (valid_of_le _ (by omega))
    rw [ht, if_neg (by omega)]
  · simp only [if_neg h]

theorem lowerChar_upperChar (c : Char) : lowerChar (upperChar c) = lowerChar c := by
  unfold lowerChar upperChar
  by_cases h : 97 ≤ c.toNat ∧ c.toNat ≤ 122
  · simp only [if_pos h]
    have ht : (Char.ofNat (c.toNat - 32)).toNat = c.toNat - 32 :=
      toNat_ofNat_valid _ (valid_of_le _ (by omega))
    rw [ht, if_pos (by omega), if_neg (by omega)]
    have h2 : c.toNat - 32 + 32 = c.toNat := by omega
    rw [h2, Char.ofNat_toNat]
  · simp only [if_neg h]

theorem upperChar_upperChar (c : Char) : upperChar (upperChar c) = upperChar c := by
  unfold upperChar
  by_cases h : 97 ≤ c.toNat ∧ c.toNat ≤ 122
  · simp only [if_pos h]
    have ht : (Char.ofNat (c.toNat - 32)).toNat = c.toNat - 32 :=
      toNat_ofNat_valid _ (valid_of_le _ (by omega))
    rw [ht, if_neg (by omega)]
  · simp only [if_neg h]

/-- Whitespace characters matched by the regex class `\s` (ASCII part). -/
def isWs (c : Char) : Bool :=
  c.toNat = 32 || c.toNat = 9 || c.toNat = 10 || c.toNat = 13 || c.toNat = 11 || c.toNat = 12

/-- ASCII decimal digit, regex class `\d` / `[0-9]`. -/
def isDigitChar (c : Char) : Bool :=
  48 ≤ c.toNat && c.toNat ≤ 57

/-- ASCII letter, regex class `[A-Za-z]`. -/
def isAsciiLetter (c : Char) : Bool :=
  (65 ≤ c.toNat && c.toNat ≤ 90) || (97 ≤ c.toNat && c.toNat ≤ 122)

/-- Regex word character `\w` (ASCII part), used for the `\b` boundary. -/
def isWordChar (c : Char) : Bool :=
  isAsciiLetter c || isDigitChar c || c.toNat = 95

theorem isWs_lowerChar (c : Char) : isWs (lowerChar c) = isWs c := by
  unfold lowerChar
  by_cases h : 65 ≤ c.toNat ∧ c.toNat ≤ 90
  · simp only [if_pos h]
    have ht : (Char.ofNat (c.toNat + 32)).toNat = c.toNat + 32 :=
      toNat_ofNat_valid _ (valid_of_le _ (by omega))
    have h1 : isWs (Char.ofNat (c.toNat + 32)) = false := by
      simp only [isWs, ht, Bool.or_eq_false_iff, decide_eq_false_iff_not]
      omega
    have h2 : isWs c = false := by
      simp only [isWs, Bool.or_eq_false_iff, decide_eq_false_iff_not]
      omega
    rw [h1, h2]
  · simp only [if_neg h]

theorem isWs_upperChar (c : Char) : isWs (upperChar c) = isWs c := by
  unfold upperChar
  by_cases h : 97 ≤ c.toNat ∧ c.toNat ≤ 122
  · simp only [if_pos h]
    have ht : (Char.ofNat (c.toNat - 32)).toNat = c.toNat - 32 :=
      toNat_ofNat_valid _ (valid_of_le _ (by omega))
    have h1 : isWs (Char.ofNat (c.toNat - 32)) = false := by
      simp only [isWs, ht, Bool.or_eq_false_iff, decide_eq_false_iff_not]
      omega
    have h2 : isWs c = false := by
      simp only [isWs, Bool.or_eq_false_iff, decide_eq_false_iff_not]
      omega
    rw [h1, h2]
  · simp only [if_neg h]

/-! ## String utilities (models of Python string operations) -/

/-- Python `str.lower()` (ASCII model). -/
def lowerStr (s : String) : String := ⟨s.data.map lowerChar⟩

/-- Python `str.upper()` (ASCII model). -/
def upperStr (s : String) : String := ⟨s.data.map upperChar⟩

/-- Python `str.capitalize()` (ASCII model): first character uppercased,
the rest lowercased. -/
def capitalizeStr (s : String) : String :=
  match s.data with
  | [] => ⟨[]⟩
  | c :: cs => ⟨upperChar c :: cs.map lowerChar⟩

/-- Python `str.strip()`: remove leading and trailing whitespace. -/
def stripChars (cs : List Char) : List Char :=
  ((cs.dropWhile isWs).reverse.dropWhile isWs).reverse

/-- Python `str.strip()` on strings. -/
def stripStr (s : String) : String := ⟨stripChars s.data⟩

/-- Split a character list at whitespace runs, dropping empty pieces.
Models `re.sub(r"\s+", " ", raw.strip())` followed by splitting at the
single spaces: the nonempty maximal whitespace-free words, in order. -/
def splitWsChars : List Char → List (List Char)
  | [] => []
  | [c] => if isWs c then [] else [[c]]
  | c :: d :: t =>
    if isWs c then splitWsChars (d :: t)
    else
      match splitWsChars (d :: t) with
      | [] => [[c]]
      | w :: ws => if isWs d then [c] :: w :: ws else (c :: w) :: ws

/-- The whitespace-separated words of a string. -/
def tokenize (s : String) : List String := (splitWsChars s.data).map (fun cs => ⟨cs⟩)

/-- Join character lists with a single separator character between them. -/
def joinWithChars (sep : Char) : List (List Char) → List Char
  | [] => []
  | [w] => w
  | w :: ws => w ++ sep :: joinWithChars sep ws

/-- Join strings with single spaces (used to model re-formatting a row). -/
def joinSp (ts : List String) : String := ⟨joinWithChars ' ' (ts.map String.data)⟩

/-- Python `"\n".join(lines)`. -/
def joinNl (ls : List String) : String := ⟨joinWithChars '\n' (ls.map String.data)⟩

/-- Split a character list at every newline, keeping empty pieces. -/
def splitNlChars : List Char → List (List Char)
  | [] => [[]]
  | c :: t =>
    if c = '\n' then [] :: splitNlChars t
    else
      match splitNlChars t with
      | [] => [[c]]
      | w :: ws => (c :: w) :: ws

/-- Python `str.splitlines()` (newline-only model): like splitting at `\n`
but with no trailing empty line; `"".splitlines() = []`. -/
def splitlinesStr (s : String) : List String :=
  let ps := splitNlChars s.data
  (if ps.getLast? = some [] then ps.dropLast else ps).map (fun cs => ⟨cs⟩)

/-! ### Lemmas about case operations on strings -/

theorem map_lowerChar_idem (l : List Char) :
    (l.map lowerChar).map lowerChar = l.map lowerChar := by
  rw [List.map_map]
  apply List.map_congr_left
  intro a _
  exact lowerChar_lowerChar a

theorem lowerStr_capitalizeStr (s : String) : lowerStr (capitalizeStr s) = lowerStr s := by
  unfold lowerStr capitalizeStr
  cases hs : s.data with
  | nil => simp [hs]
  | cons c cs =>
    apply String.ext
    simp only [hs, List.map_cons, List.cons.injEq]
    constructor
    · exact lowerChar_upperChar c
    · exact map_lowerChar_idem cs

theorem capitalizeStr_congr_lower {t s : String} (h : lowerStr t = lowerStr s) :
    capitalizeStr t = capitalizeStr s := by
  unfold lowerStr at h
  rw [String.ext_iff] at h
  simp only at h
  unfold capitalizeStr
  cases ht : t.data with
  | nil =>
    cases hs : s.data with
    | nil => rfl
    | cons c cs => rw [ht, hs] at h; simp at h
  | cons c cs =>
    cases hs : s.data with
    | nil => rw [ht, hs] at h; simp at h
    | cons d ds =>
      rw [ht, hs] at h
      simp only [List.map_cons, List.cons.injEq] at h
      obtain ⟨h1, h2⟩ := h
      apply String.ext
      simp only [List.cons.injEq]
      constructor
      · rw [← upperChar_lowerChar c, h1, upperChar_lowerChar d]
      · rw [← map_lowerChar_idem cs, h2, map_lowerChar_idem ds]

theorem capitalizeStr_idem (s : String) : capitalizeStr (capitalizeStr s) = capitalizeStr s := by
  unfold capitalizeStr
  cases hs : s.data with
  | nil => rfl
  | cons c cs =>
    apply String.ext
    simp only [List.cons.injEq]
    constructor
    · exact upperChar_upperChar c
    · exact map_lowerChar_idem cs

/-! ## Regex building blocks

Each Python regex from the source is embedded as an explicit matcher at a
position (`List Char → Option …`); `searchChars` scans positions left to
right like `re.search`.  Greedy `\s*` is modelled possessively, which is
equivalent here because in every embedded pattern the construct after a
`\s*` cannot match a whitespace character, except the `(.+?)`/`(.+)`
captures, where a difference only arises for values that are entirely
whitespace and strip to the empty string anyway. -/

/-- Skip `\s*`. -/
def wsStar (cs : List Char) : List Char := cs.dropWhile isWs

/-- Match a literal case-insensitively (literal given lowercase); returns
the remaining input. -/
def dropCI : List Char → List Char → Option (List Char)
  | [], cs => some cs
  | _ :: _, [] => none
  | l :: lt, c :: ct => if lowerChar c = l then dropCI lt ct else none

/-- Match a literal case-insensitively, returning the consumed original
characters (a regex group keeps the original case of the input). -/
def takeCI : List Char → List Char → Option (List Char × List Char)
  | [], cs => some ([], cs)
  | _ :: _, [] => none
  | l :: lt, c :: ct =>
    if lowerChar c = l then (takeCI lt ct).map (fun p => (c :: p.1, p.2)) else none

/-- Expect one exact character. -/
def dropChar (x : Char) : List Char → Option (List Char)
  | [] => none
  | c :: t => if c = x then some t else none

/-- Greedy `(\d+)`: capture a nonempty run of digits. -/
def digits1 (cs : List Char) : Option (List Char × List Char) :=
  let d := cs.takeWhile isDigitChar
  if d.isEmpty then none else some (d, cs.dropWhile isDigitChar)

/-- Greedy `([A-Za-z]+)`. -/
def letters1 (cs : List Char) : Option (List Char × List Char) :=
  let d := cs.takeWhile isAsciiLetter
  if d.isEmpty then none else some (d, cs.dropWhile isAsciiLetter)

/-- Greedy `(.+)` at end of pattern: capture ≥ 1 characters up to a
newline (the regex `.` does not match `\n`). -/
def lineRest1 (cs : List Char) : Option (List Char) :=
  let d := cs.takeWhile (fun c => !(c = '\n'))
  if d.isEmpty then none else some d

/-- Greedy `([0-9]+(?:\.[0-9]+)?)`: digits, optionally followed by a dot
and more digits. -/
def decimalNum (cs : List Char) : Option (List Char) :=
  (digits1 cs).map (fun p =>
    match p.2 with
    | '.' :: r2 =>
      match digits1 r2 with
      | some (d2, _) => p.1 ++ '.' :: d2
      | none => p.1
    | _ => p.1)

/-- Match a sequence of case-insensitive literal items separated by `\s*`,
then `\s*:` and a final `\s*`; i.e. the common shape
`item1\s*item2\s*…\s*:\s*` of the label patterns. -/
def labelColon : List (List Char) → List Char → Option (List Char)
  | [], cs => (dropChar ':' cs).map wsStar
  | it :: rest, cs => (dropCI it cs).bind (fun cs2 => labelColon rest (wsStar cs2))

/-- `re.search`: try the matcher at each position, leftmost first. -/
def searchChars {α : Type} (m : List Char → Option α) : List Char → Option α
  | [] => m []
  | c :: t =>
    match m (c :: t) with
    | some r => some r
    | none => searchChars m t

/-! ## The embedded patterns of the general-info extraction -/

/-- `Institute\s*Code\s*&\s*Name\s*:\s*(.+)` at a position. -/
def matchInstituteAt (cs : List Char) : Option String :=
  (labelColon ["institute".data, "code".data, "&".data, "name".data] cs).bind
    (fun c2 => (lineRest1 c2).map (fun cap => ⟨cap⟩))

/-- `Course\s*Code\s*&\s*Name\s*:\s*(.+)` at a position. -/
def matchCourseAt (cs : List Char) : Option String :=
  (labelColon ["course".data, "code".data, "&".data, "name".data] cs).bind
    (fun c2 => (lineRest1 c2).map (fun cap => ⟨cap⟩))

/-- `Branch\s*Code\s*&\s*Name\s*:\s*(.+)` at a position. -/
def matchBranchAt (cs : List Char) : Option String :=
  (labelColon ["branch".data, "code".data, "&".data, "name".data] cs).bind
    (fun c2 => (lineRest1 c2).map (fun cap => ⟨cap⟩))

/-- `Roll\s*No\s*:\s*(\d+)` at a position. -/
def matchRollNoAt (cs : List Char) : Option String :=
  (labelColon ["roll".data, "no".data] cs).bind
    (fun c2 => (digits1 c2).map (fun p => (⟨p.1⟩ : String)))

/-- `Enrollment\s*No\s*:\s*(.+)` at a position. -/
def matchEnrollmentAt (cs : List Char) : Option String :=
  (labelColon ["enrollment".data, "no".data] cs).bind
    (fun c2 => (lineRest1 c2).map (fun cap => ⟨cap⟩))

/-- The lookahead `(?=\s*Hindi\s*Name\s*:|$)` of the Name pattern:
either `\s*Hindi\s*Name\s*:` matches here, or this is the end of the
whole text (`$` also matches just before a final newline). -/
def nameStop (cs : List Char) : Bool :=
  (labelColon ["hindi".data, "name".data] (wsStar cs)).isSome
    || cs.isEmpty || cs = ['\n']

/-- Non-greedy `(.+?)` growing until a stop condition holds; at least one
character, never across a newline. -/
def lazyGo (stop : List Char → Bool) (acc : List Char) : List Char → Option (List Char)
  | [] => if stop [] then some acc.reverse else none
  | c :: t =>
    if stop (c :: t) then some acc.reverse
    else if c = '\n' then none
    else lazyGo stop (c :: acc) t

/-- `Name\s*:\s*(.+?)(?=\s*Hindi\s*Name\s*:|$)` at a position. -/
def matchNameAt (cs : List Char) : Option String :=
  (labelColon ["name".data] cs).bind (fun c2 =>
    match c2 with
    | [] => none
    | c :: t => if c = '\n' then none else (lazyGo nameStop [c] t).map (fun cap => ⟨cap⟩))

/-- `Hindi\s*Name\s*:\s*(.+)` at a position. -/
def matchHindiNameAt (cs : List Char) : Option String :=
  (labelColon ["hindi".data, "name".data] cs).bind
    (fun c2 => (lineRest1 c2).map (fun cap => ⟨cap⟩))

/-- `Gender\s*:\s*([A-Za-z]+)` at a position. -/
def matchGenderAt (cs : List Char) : Option String :=
  (labelColon ["gender".data] cs).bind
    (fun c2 => (letters1 c2).map (fun p => (⟨p.1⟩ : String)))

/-- `Session\s*:\s*(.+)` at a position. -/
def matchSessionAt (cs : List Char) : Option String :=
  (labelColon ["session".data] cs).bind
    (fun c2 => (lineRest1 c2).map (fun cap => ⟨cap⟩))

/-- `Semester\s*:\s*(\d+)` at a position (the unanchored general-info
variant). -/
def matchSemesterAt (cs : List Char) : Option String :=
  (labelColon ["semester".data] cs).bind
    (fun c2 => (digits1 c2).map (fun p => (⟨p.1⟩ : String)))

/-- `Even\s*/\s*Odd\s*:\s*(Even|Odd)` at a position. -/
def matchEvenOddAt (cs : List Char) : Option String :=
  (dropCI "even".data cs).bind (fun c1 =>
    (dropChar '/' (wsStar c1)).bind (fun c2 =>
      (dropCI "odd".data (wsStar c2)).bind (fun c3 =>
        (dropChar ':' (wsStar c3)).bind (fun c4 =>
          (match takeCI "even".data (wsStar c4) with
           | some p => some p
           | none =>
             takeCI "odd".data (wsStar c4) : Option (List Char × List Char)).map
            (fun p => (⟨p.1⟩ : String))))))

/-- `SGPA\s*:\s*([0-9]+(?:\.[0-9]+)?)` at a position. -/
def matchSgpaAt (cs : List Char) : Option String :=
  (labelColon ["sgpa".data] cs).bind
    (fun c2 => (decimalNum c2).map (fun cap => ⟨cap⟩))

/-- `Total\s*Marks\s*Obt\.?\s*:\s*([0-9]+)` at a position. -/
def matchTotalMarksAt (cs : List Char) : Option String :=
  (dropCI "total".data cs).bind (fun c1 =>
    (dropCI "marks".data (wsStar c1)).bind (fun c2 =>
      (dropCI "obt".data (wsStar c2)).bind (fun c3 =>
        let c4 := match c3 with
          | '.' :: r => r
          | _ => c3
        (dropChar ':' (wsStar c4)).bind (fun c5 =>
          (digits1 (wsStar c5)).map (fun p => (⟨p.1⟩ : String))))))

/-- `Result\s*Status\s*:\s*(.+)` at a position. -/
def matchResultStatusAt (cs : List Char) : Option String :=
  (labelColon ["result".data, "status".data] cs).bind
    (fun c2 => (lineRest1 c2).map (fun cap => ⟨cap⟩))

/-! ## The block-level regexes -/

/-- `re_semester = ^\s*Semester\s*:\s*(\d+)` — searched, but anchored at
the start, so a match can only occur at position 0. -/
def semCapture (s : String) : Option String :=
  (labelColon ["semester".data] (wsStar s.data)).bind
    (fun c2 => (digits1 c2).map (fun p => (⟨p.1⟩ : String)))

/-- `header_regex = ^\s*Code\s+Name\s+Type\s+Internal\s+External\s+Back\s+Paper\s+Grade\s*$`
(case-insensitive, anchored on both ends): the line's words are exactly
the eight header words. -/
def isHeaderLine (s : String) : Bool :=
  (tokenize s).map lowerStr =
    ["code", "name", "type", "internal", "external", "back", "paper", "grade"]

/-- `heading_result_regex = ^(?:Minor|Major)\s*Result` (case-insensitive). -/
def isResultHeading (s : String) : Bool :=
  ((dropCI "minor".data s.data).bind (fun r => dropCI "result".data (wsStar r))).isSome
    || ((dropCI "major".data s.data).bind (fun r => dropCI "result".data (wsStar r))).isSome

/-- `code_start_regex = ^[A-Z]{3}\d{3}\b` with IGNORECASE. -/
def codeStartTest (s : String) : Bool :=
  match s.data with
  | a :: b :: c :: d :: e :: f :: rest =>
    isAsciiLetter a && isAsciiLetter b && isAsciiLetter c
      && isDigitChar d && isDigitChar e && isDigitChar f
      && (match rest with
          | [] => true
          | g :: _ => !isWordChar g)
  | _ => false

/-- `re_even_odd.search` on a line. -/
def evenOddCap (s : String) : Option String := searchChars matchEvenOddAt s.data

/-- `re_total_marks.search` on a line. -/
def totalMarksCap (s : String) : Option String := searchChars matchTotalMarksAt s.data

/-- `re_result_status.search` on a line. -/
def resultStatusCap (s : String) : Option String := searchChars matchResultStatusAt s.data

/-- `re_sgpa.search` on a line. -/
def sgpaCap (s : String) : Option String := searchChars matchSgpaAt s.data

/-! ## The subject-row grammar (`parse_row_to_columns`)

The row pattern is matched against whitespace-normalised text
(`re.sub(r"\s+", " ", raw.strip())`), so every group boundary falls on a
word boundary and the pattern is equivalently a grammar over the word
list:

`([A-Z]{3}\d{3}) (.+?) (Theory|Practical|CA|Lab|Project|Workshop|Training)
(\d+) (\d+|--)? (--|\d+)? ([A-Za-z]{1,2}\+?)?` with IGNORECASE, anchored
at both ends.  The non-greedy name takes the fewest words for which the
rest matches; the optional groups are greedy with backtracking. -/

/-- A whole word matching `[A-Z]{3}\d{3}` under IGNORECASE. -/
def isCodeTok (s : String) : Bool :=
  match s.data with
  | [a, b, c, d, e, f] =>
    isAsciiLetter a && isAsciiLetter b && isAsciiLetter c
      && isDigitChar d && isDigitChar e && isDigitChar f
  | _ => false

/-- The type keywords of the row grammar, lowercase. -/
def typeKwsLower : List String :=
  ["theory", "practical", "ca", "lab", "project", "workshop", "training"]

/-- A whole word equal to one of the type keywords under IGNORECASE. -/
def isTypeTok (t : String) : Bool := typeKwsLower.contains (lowerStr t)

/-- A whole word matching `\d+`. -/
def isDigitsTok (s : String) : Bool := !s.data.isEmpty && s.data.all isDigitChar

/-- A whole word matching `\d+|--` (the External / Back Paper groups). -/
def numOrDashTok (s : String) : Bool := isDigitsTok s || s = "--"

/-- A whole word matching `[A-Za-z]{1,2}\+?` (the Grade group). -/
def isGradeTok (s : String) : Bool :=
  match s.data with
  | [a] => isAsciiLetter a
  | [a, b] => isAsciiLetter a && (isAsciiLetter b || b = '+')
  | [a, b, c] => isAsciiLetter a && isAsciiLetter b && c = '+'
  | _ => false

/-- The optional Grade group followed by the end anchor: take a final
grade word, or nothing ("--" filled in). -/
def tryGrade : List String → Option String
  | [] => some "--"
  | [g] => if isGradeTok g then some g else none
  | _ => none

/-- The optional Back Paper group (greedy, backtracking to skipping). -/
def tryBp (ts : List String) : Option (String × String) :=
  match
    (match ts with
     | b :: r => if numOrDashTok b then (tryGrade r).map (fun g => (b, g)) else none
     | [] => none : Option (String × String))
  with
  | some p => some p
  | none => (tryGrade ts).map (fun g => ("--", g))

/-- The optional External group (greedy, backtracking to skipping). -/
def tryExt (ts : List String) : Option (String × String × String) :=
  match
    (match ts with
     | e :: r => if numOrDashTok e then (tryBp r).map (fun p => (e, p.1, p.2)) else none
     | [] => none : Option (String × String × String))
  with
  | some p => some p
  | none => (tryBp ts).map (fun p => ("--", p.1, p.2))

/-- Internal followed by the three optional groups and the end anchor. -/
def matchTail (ts : List String) : Option (String × String × String × String) :=
  match ts with
  | i :: rest =>
    if isDigitsTok i then (tryExt rest).map (fun p => (i, p.1, p.2.1, p.2.2)) else none
  | [] => none

/-- The non-greedy name loop: with accumulated name words `acc`, try the
current word as the Type; on failure of the rest, extend the name.  On
success the emitted row applies the Python post-processing: missing
optional groups were already filled with "--" and the type is
`capitalize`d. -/
def nameLoop (code : String) (acc : List String) : List String → Option (List String)
  | [] => none
  | t :: rest =>
    match (if !acc.isEmpty && isTypeTok t then matchTail rest else none) with
    | some (i, e, b, g) => some [code, joinSp acc, capitalizeStr t, i, e, b, g]
    | none => nameLoop code (acc ++ [t]) rest

/-- The row grammar over the word list. -/
def matchRow (ts : List String) : Option (List String) :=
  match ts with
  | code :: rest => if isCodeTok code then nameLoop code [] rest else none
  | [] => none

/-- `parse_row_to_columns(raw)`: normalise whitespace and match the row
grammar; `None` becomes `none`. -/
def parse_row_to_columns (raw : String) : Option (List String) :=
  matchRow (tokenize raw)

/-! ## Key-value maps (model of the Python dicts, insertion-ordered) -/

/-- An insertion-ordered string map, as Python dicts are. -/
abbrev KV := List (String × String)

/-- Dict lookup. -/
def lookupKV : KV → String → Option String
  | [], _ => none
  | (a, b) :: t, k => if a = k then some b else lookupKV t k

/-- Dict assignment: replace in place if the key exists, else append. -/
def setKV : KV → String → String → KV
  | [], k, v => [(k, v)]
  | (a, b) :: t, k, v => if a = k then (a, v) :: t else (a, b) :: setKV t k v

/-! ## General-info extraction (first pass, regex fallback, assembly) -/

/-- `target_fields_order` from the source. -/
def target_fields_order : List String :=
  ["Institute Code & Name", "Course Code & Name", "Branch Code & Name",
   "RollNo", "EnrollmentNo", "Name", "Hindi Name", "Father\x27s Name",
   "Gender", "Session", "Semester", "Even/Odd", "SGPA",
   "Total Marks Obt.", "Result Status"]

/-- `normalized_targets`: each field with its lowercase form. -/
def normalized_targets : List (String × String) :=
  target_fields_order.map (fun k => (k, lowerStr k))

/-- `line.split(":", 1)`: the part before the first colon and the rest. -/
def splitFirstColon : List Char → Option (List Char × List Char)
  | [] => none
  | c :: t =>
    if c = ':' then some ([], t)
    else (splitFirstColon t).map (fun p => (c :: p.1, p.2))

/-- Python `str.startswith` on character lists. -/
def strStartsWith : List Char → List Char → Bool
  | [], _ => true
  | _ :: _, [] => false
  | p :: pt, c :: ct => p = c && strStartsWith pt ct

/-- The inner loop of the first pass: find the first target whose
lowercase name is a prefix of the key and which is not yet recorded. -/
def tryTargets (m : KV) (lkey value : String) : List (String × String) → KV
  | [] => m
  | (orig, norm) :: rest =>
    if strStartsWith norm.data lkey.data && (lookupKV m orig).isNone then setKV m orig value
    else tryTargets m lkey value rest

/-- One line of the first pass: skip lines without a colon, split at the
first colon, record under the first matching target. -/
def scanLinePass1 (m : KV) (raw : String) : KV :=
  let line := stripStr raw
  if line.data.isEmpty || !(line.data.contains ':') then m
  else
    match splitFirstColon line.data with
    | none => m
    | some (le, ri) =>
      tryTargets m (lowerStr (stripStr ⟨le⟩)) (stripStr ⟨ri⟩) normalized_targets

/-- The first pass over all lines. -/
def pass1 (lines : List String) : KV := lines.foldl scanLinePass1 []

/-- The `patterns` dict of the regex fallback, in source order: each
label with its search over the full text. -/
def genPatterns : List (String × (String → Option String)) :=
  [("Institute Code & Name", fun s => searchChars matchInstituteAt s.data),
   ("Course Code & Name", fun s => searchChars matchCourseAt s.data),
   ("Branch Code & Name", fun s => searchChars matchBranchAt s.data),
   ("RollNo", fun s => searchChars matchRollNoAt s.data),
   ("EnrollmentNo", fun s => searchChars matchEnrollmentAt s.data),
   ("Name", fun s => searchChars matchNameAt s.data),
   ("Hindi Name", fun s => searchChars matchHindiNameAt s.data),
   ("Gender", fun s => searchChars matchGenderAt s.data),
   ("Session", fun s => searchChars matchSessionAt s.data),
   ("Semester", fun s => searchChars matchSemesterAt s.data),
   ("Even/Odd", fun s => searchChars matchEvenOddAt s.data),
   ("SGPA", fun s => searchChars matchSgpaAt s.data),
   ("Total Marks Obt.", fun s => searchChars matchTotalMarksAt s.data),
   ("Result Status", fun s => searchChars matchResultStatusAt s.data)]

/-- One label of the fallback pass: skip if already present and nonempty,
else search the full text and store the stripped capture. -/
def pass2step (ft : String) (m : KV) (p : String × (String → Option String)) : KV :=
  if !((lookupKV m p.1).getD "" = "") then m
  else
    match p.2 ft with
    | some v => setKV m p.1 (stripStr v)
    | none => m

/-- The regex fallback pass over the full text. -/
def pass2 (m : KV) (ft : String) : KV := genPatterns.foldl (pass2step ft) m

/-- RollNo post-processing: `re.match(r"\d+", roll_val)` keeps the
leading digit run when there is one. -/
def rollPost (v : String) : String :=
  if (v.data.takeWhile isDigitChar).isEmpty then v else ⟨v.data.takeWhile isDigitChar⟩

/-- The characters before the first occurrence of `pat`, when present. -/
def splitAtSub (pat : List Char) : List Char → Option (List Char)
  | [] => if strStartsWith pat [] then some [] else none
  | c :: t =>
    if strStartsWith pat (c :: t) then some []
    else (splitAtSub pat t).map (fun pre => c :: pre)

/-- Python `str.rstrip(":")`. -/
def rstripColons (cs : List Char) : List Char :=
  (cs.reverse.dropWhile (fun c => c = ':')).reverse

/-- Name post-processing: cut at a leaked "Hindi", strip, drop trailing
colons. -/
def namePost (v : String) : String :=
  match splitAtSub "Hindi".data v.data with
  | some pre => ⟨rstripColons (stripStr ⟨pre⟩).data⟩
  | none => v

/-- The `add` helper of the source, as the entry list it contributes. -/
def addEntry (label value : String) (always : Bool) : List (String × String) :=
  if always || !(value = "") then [(label, value)] else []

/-- The final ordered `general_info` assembly (lines 136–155 of the
source): most fields only when nonempty, the two relabeled fields
always, and no entry for Father\x27s Name, Session or Result Status. -/
def buildGeneralInfo (m : KV) : List (String × String) :=
  addEntry "Institute Code & Name" ((lookupKV m "Institute Code & Name").getD "") false
  ++ addEntry "Course Code & Name" ((lookupKV m "Course Code & Name").getD "") false
  ++ addEntry "Branch Code & Name" ((lookupKV m "Branch Code & Name").getD "") false
  ++ addEntry "RollNo" (rollPost ((lookupKV m "RollNo").getD "")) false
  ++ addEntry "EnrollmentNo" ((lookupKV m "EnrollmentNo").getD "") false
  ++ addEntry "Name" (namePost ((lookupKV m "Name").getD "")) false
  ++ addEntry "Hindi Name" ((lookupKV m "Hindi Name").getD "") false
  ++ addEntry "Gender" ((lookupKV m "Gender").getD "") false
  ++ addEntry "Semester" ((lookupKV m "Semester").getD "") false
  ++ addEntry "Even/Odd" ((lookupKV m "Even/Odd").getD "") false
  ++ addEntry "Total Marks Obt. :" ((lookupKV m "Total Marks Obt.").getD "") true
  ++ addEntry "SGPA :" ((lookupKV m "SGPA").getD "") true

/-! ## The marksheet-block state machine -/

/-- One emitted block: its summary, the fixed header and its rows. -/
structure MarksheetBlock where
  summary : KV
  header : List String
  rows : List (List String)
deriving DecidableEq, Repr

/-- `header_cols` from the source. -/
def header_cols : List String :=
  ["Code", "Name", "Type", "Internal", "External", "Back Paper", "Grade"]

/-- The fresh summary created at a `Semester :` line. -/
def summaryInit (n : String) : KV :=
  [("Semester", n), ("Even/Odd", ""), ("Total Marks Obt.", ""),
   ("Result Status", ""), ("SGPA", "")]

/-- The per-line summary capture (lines 309–322 of the source): each of
the four patterns is searched on the line and, when it matches, the
field is assigned — overwriting any earlier value. -/
def updateSummary (s : KV) (l : String) : KV :=
  let s1 := match evenOddCap l with
    | some v => setKV s "Even/Odd" v
    | none => s
  let s2 := match totalMarksCap l with
    | some v => setKV s1 "Total Marks Obt." v
    | none => s1
  let s3 := match resultStatusCap l with
    | some v => setKV s2 "Result Status" (stripStr v)
    | none => s2
  match sgpaCap l with
  | some v => setKV s3 "SGPA" v
  | none => s3

/-- The guard of the soft consistency check in `finalize_block`:
`expected and expected.isdigit()` for `expected = summary.get("Total Subjects")`. -/
def totalSubjectsCheckRuns (s : KV) : Bool :=
  match lookupKV s "Total Subjects" with
  | some e => !(e = "") && isDigitsTok e
  | none => false

/-- `finalize_block`: a block with no rows is dropped; otherwise the
block is appended (the soft consistency check reads the summary but has
no effect on the output). -/
def finalize_block (summary : KV) (table_rows : List (List String)) : List MarksheetBlock :=
  if table_rows.isEmpty then []
  else [{ summary := summary, header := header_cols, rows := table_rows }]

/-- Finalisation guarded by `current_summary is not None`. -/
def emitOpt (os : Option KV) (rows : List (List String)) : List MarksheetBlock :=
  match os with
  | some s => finalize_block s rows
  | none => []

/-- The trailing-buffer flush at the end of row collection. -/
def flushBuf (buf : String) : List (List String) :=
  if buf = "" then []
  else
    match parse_row_to_columns buf with
    | some r => [r]
    | none => []

/-- The three states of the per-page scan: outside any block, collecting
summary lines (`current_summary` may already have been consumed), and
collecting table rows with the accumulated rows and the wrap buffer. -/
inductive MState where
  | scanning : MState
  | insum : Option KV → MState
  | inrows : Option KV → List (List String) → String → MState

/-- The outcome of one line inside row collection. -/
inductive RowsOut where
  | next : List (List String) → String → RowsOut
  | stopSem : String → RowsOut
  | stopHead : RowsOut

/-- One line of the row-collection loop (lines 264–296 of the source):
stop at a new `Semester :` line or a Minor/Major Result heading; skip
repeated headers and blank lines; otherwise try the buffered+current
combination, then the buffer alone when the current line starts with a
subject code, else accumulate into the buffer. -/
def rowsStep (rows : List (List String)) (buf : String) (l : String) : RowsOut :=
  match semCapture l with
  | some n => .stopSem n
  | none =>
    if isResultHeading l then .stopHead
    else if isHeaderLine l then .next rows buf
    else if l = "" then .next rows buf
    else
      let combined := if buf = "" then l else buf ++ " " ++ l
      match parse_row_to_columns combined with
      | some r => .next (rows ++ [r]) ""
      | none =>
        if !(buf = "") && codeStartTest l then
          match parse_row_to_columns buf with
          | some rb => .next (rows ++ [rb]) l
          | none => .next rows combined
        else .next rows combined

/-- The per-page scan (lines 237–331 of the source) as a state machine
over the line list; returns the blocks emitted from this point on. -/
def machine : List String → MState → List MarksheetBlock
  | [], st =>
    match st with
    | .inrows os rows buf => emitOpt os (rows ++ flushBuf buf)
    | _ => []
  | l0 :: rest, st =>
    match st with
    | .scanning =>
      match semCapture (stripStr l0) with
      | some n => machine rest (.insum (some (summaryInit n)))
      | none => machine rest .scanning
    | .insum os =>
      if isHeaderLine (stripStr l0) then machine rest (.inrows os [] "")
      else
        -- the source captures fields into the current dict and only then
        -- tests for a new `Semester :` line; on a new semester line the
        -- just-updated dict is discarded and replaced by a fresh one
        let os2 := os.map (fun s => updateSummary s (stripStr l0))
        match semCapture (stripStr l0) with
        | some n => machine rest (.insum (some (summaryInit n)))
        | none => machine rest (.insum os2)
    | .inrows os rows buf =>
      match rowsStep rows buf (stripStr l0) with
      | .next r2 b2 => machine rest (.inrows os r2 b2)
      | .stopSem n =>
        emitOpt os (rows ++ flushBuf buf) ++ machine rest (.insum (some (summaryInit n)))
      | .stopHead =>
        emitOpt os (rows ++ flushBuf buf) ++ machine rest (.insum none)

/-- The blocks of one page: a fresh scan over its lines. -/
def pageBlocks (p : String) : List MarksheetBlock :=
  machine (splitlinesStr p) .scanning

/-- `extract_marksheet_blocks`: the whole core on the per-page texts —
the ordered general info and the marksheet blocks of all pages. -/
def extract_marksheet_blocks (pages : List String) :
    List (String × String) × List MarksheetBlock :=
  let all_lines := (pages.map splitlinesStr).flatten
  let full_text := joinNl all_lines
  let found := pass2 (pass1 all_lines) full_text
  (buildGeneralInfo found, (pages.map pageBlocks).flatten)

/-! ## Lemmas about block emission and the state machine -/

theorem mem_emitOpt {os : Option KV} {rows : List (List String)} {b : MarksheetBlock}
    (h : b ∈ emitOpt os rows) :
    ∃ s, os = some s ∧ b = ⟨s, header_cols, rows⟩ ∧ rows ≠ [] := by
  cases os with
  | none => simp [emitOpt] at h
  | some s =>
    refine ⟨s, rfl, ?_⟩
    simp only [emitOpt, finalize_block] at h
    by_cases he : rows.isEmpty
    · rw [if_pos he] at h
      simp at h
    · rw [if_neg he] at h
      simp only [List.mem_singleton] at h
      exact ⟨h, by simpa [List.isEmpty_iff] using he⟩

theorem machine_rows_ne_nil (ls : List String) :
    ∀ (st : MState) (b : MarksheetBlock), b ∈ machine ls st → b.rows ≠ [] := by
  induction ls with
  | nil =>
    intro st b h
    cases st with
    | scanning => simp [machine] at h
    | insum os => simp [machine] at h
    | inrows os rows buf =>
      simp only [machine] at h
      obtain ⟨s, -, hb, hne⟩ := mem_emitOpt h
      rw [hb]
      exact hne
  | cons l0 rest ih =>
    intro st b h
    cases st with
    | scanning =>
      simp only [machine] at h
      rcases hsem : semCapture (stripStr l0) with _ | n <;> rw [hsem] at h
      · exact ih _ _ h
      · exact ih _ _ h
    | insum os =>
      simp only [machine] at h
      by_cases hh : isHeaderLine (stripStr l0)
      · rw [if_pos hh] at h
        exact ih _ _ h
      · rw [if_neg hh] at h
        rcases hsem : semCapture (stripStr l0) with _ | n <;> rw [hsem] at h
        · exact ih _ _ h
        · exact ih _ _ h
    | inrows os rows buf =>
      simp only [machine] at h
      cases hr : rowsStep rows buf (stripStr l0) with
      | next r2 b2 =>
        rw [hr] at h
        exact ih _ _ h
      | stopSem n =>
        rw [hr] at h
        rcases List.mem_append.1 h with h1 | h2
        · obtain ⟨s, -, hb, hne⟩ := mem_emitOpt h1
          rw [hb]
          exact hne
        · exact ih _ _ h2
      | stopHead =>
        rw [hr] at h
        rcases List.mem_append.1 h with h1 | h2
        · obtain ⟨s, -, hb, hne⟩ := mem_emitOpt h1
          rw [hb]
          exact hne
        · exact ih _ _ h2

/-- **C1.** Every block in the returned `marksheet_blocks` has at least one
row: `finalize_block` drops a block with an empty reconstructed row list,
so a header-only false start is never emitted. -/
theorem every_emitted_block_has_a_row (pages : List String) (b : MarksheetBlock)
    (h : b ∈ (extract_marksheet_blocks pages).2) : b.rows ≠ [] := by
  simp only [extract_marksheet_blocks, List.mem_flatten, List.mem_map] at h
  obtain ⟨bs, ⟨p, -, hbs⟩, hb⟩ := h
  rw [← hbs] at hb
  exact machine_rows_ne_nil _ _ _ hb

/-- Witness for C1 at a concrete input. -/
theorem every_emitted_block_has_a_row_witness :
    (⟨summaryInit "9", header_cols, [["ZZZ999", "W", "Theory", "1", "--", "--", "--"]]⟩ : MarksheetBlock)
      ∈ (extract_marksheet_blocks
          ["Semester : 9\nCode Name Type Internal External Back Paper Grade\nZZZ999 W Theory 1"]).2
    ∧ (⟨summaryInit "9", header_cols, [["ZZZ999", "W", "Theory", "1", "--", "--", "--"]]⟩ : MarksheetBlock).rows ≠ [] := by
  have hm :
      (⟨summaryInit "9", header_cols, [["ZZZ999", "W", "Theory", "1", "--", "--", "--"]]⟩ : MarksheetBlock)
        ∈ (extract_marksheet_blocks
            ["Semester : 9\nCode Name Type Internal External Back Paper Grade\nZZZ999 W Theory 1"]).2 := by
    have he :
        (extract_marksheet_blocks
            ["Semester : 9\nCode Name Type Internal External Back Paper Grade\nZZZ999 W Theory 1"]).2 =
          [⟨summaryInit "9", header_cols, [["ZZZ999", "W", "Theory", "1", "--", "--", "--"]]⟩] := rfl
    rw [he]
    exact List.mem_singleton.2 rfl
  exact ⟨hm, every_emitted_block_has_a_row _ _ hm⟩

/-- The stop condition of row collection: the (stripped) line starts a
new `Semester :` heading, or matches the Minor/Major Result pattern. -/
def stopsRows (l : String) : Bool :=
  (semCapture (stripStr l)).isSome || isResultHeading (stripStr l)

theorem rowsStep_not_stop {l : String} (h1 : semCapture l = none)
    (h2 : isResultHeading l = false) (rows : List (List String)) (buf : String) :
    ∃ r2 b2, rowsStep rows buf l = RowsOut.next r2 b2 := by
  simp only [rowsStep, h1, h2, Bool.false_eq_true, if_false]
  split
  · exact ⟨_, _, rfl⟩
  split
  · exact ⟨_, _, rfl⟩
  split
  · exact ⟨_, _, rfl⟩
  split
  · split
    · exact ⟨_, _, rfl⟩
    · exact ⟨_, _, rfl⟩
  · exact ⟨_, _, rfl⟩

theorem rowsStep_stopSem {l n : String} (h : semCapture l = some n)
    (rows : List (List String)) (buf : String) :
    rowsStep rows buf l = RowsOut.stopSem n := by
  simp only [rowsStep, h]

theorem rowsStep_stopHead {l : String} (h1 : semCapture l = none)
    (h2 : isResultHeading l = true) (rows : List (List String)) (buf : String) :
    rowsStep rows buf l = RowsOut.stopHead := by
  simp only [rowsStep, h1, h2, if_true]

/-- **C6.** Row collection for a block stops only at a line that starts a
new `Semester :` heading or matches the Minor/Major Result pattern; on
any other line — including one merely containing "Total" or "SGPA"
inside table-row text — the machine keeps collecting rows from the rest
of the lines.  On a stop line the block is finalised. -/
theorem row_collection_stops_only_at_structural_markers
    (os : Option KV) (rows : List (List String)) (buf : String)
    (l : String) (rest : List String) :
    (stopsRows l = false →
      ∃ r2 b2, machine (l :: rest) (MState.inrows os rows buf) =
        machine rest (MState.inrows os r2 b2)) ∧
    (stopsRows l = true →
      ∃ os2, machine (l :: rest) (MState.inrows os rows buf) =
        emitOpt os (rows ++ flushBuf buf) ++ machine rest (MState.insum os2)) := by
  constructor
  · intro h
    simp only [stopsRows, Bool.or_eq_false_iff] at h
    have h1 : semCapture (stripStr l) = none := by
      cases hs : semCapture (stripStr l) with
      | none => rfl
      | some n => rw [hs] at h; simp at h
    obtain ⟨r2, b2, hr⟩ := rowsStep_not_stop h1 h.2 rows buf
    exact ⟨r2, b2, by simp only [machine, hr]⟩
  · intro h
    cases hs : semCapture (stripStr l) with
    | some n =>
      exact ⟨some (summaryInit n), by simp only [machine, rowsStep_stopSem hs]⟩
    | none =>
      simp only [stopsRows, hs, Option.isSome_none, Bool.false_or] at h
      exact ⟨none, by simp only [machine, rowsStep_stopHead hs h]⟩

/-- Witness for C6: a table-row line whose text contains the word
"Total" does not stop row collection. -/
theorem row_collection_stops_only_at_structural_markers_witness :
    stopsRows "MTH202 Total Quality Mgmt Theory 38 45 -- B" = false ∧
    ∃ r2 b2,
      machine ["MTH202 Total Quality Mgmt Theory 38 45 -- B"]
          (MState.inrows (some (summaryInit "3")) [] "") =
        machine [] (MState.inrows (some (summaryInit "3")) r2 b2) :=
  ⟨by decide,
   (row_collection_stops_only_at_structural_markers
      (some (summaryInit "3")) [] "" "MTH202 Total Quality Mgmt Theory 38 45 -- B" []).1
     (by decide)⟩

/-- **C7.** When a line stops row collection because it is a new
`Semester :` heading, the current block is finalised and that same line
immediately opens the next block (it is not consumed as a row); hence
two back-to-back semester blocks each produce their own block with
correctly scoped rows. -/
theorem stop_line_reevaluated_and_blocks_chain :
    (∀ (os : Option KV) (rows : List (List String)) (buf : String)
        (l : String) (rest : List String) (n : String),
      semCapture (stripStr l) = some n →
      machine (l :: rest) (MState.inrows os rows buf) =
        emitOpt os (rows ++ flushBuf buf) ++
          machine rest (MState.insum (some (summaryInit n)))) ∧
    (extract_marksheet_blocks
        ["Semester : 1\nCode Name Type Internal External Back Paper Grade\nABC101 Alg Theory 30 40 -- A\nSemester : 2\nCode Name Type Internal External Back Paper Grade\nXYZ202 Db Lab 25 35 -- B"]).2 =
      [⟨summaryInit "1", header_cols, [["ABC101", "Alg", "Theory", "30", "40", "--", "A"]]⟩,
       ⟨summaryInit "2", header_cols, [["XYZ202", "Db", "Lab", "25", "35", "--", "B"]]⟩] := by
  constructor
  · intro os rows buf l rest n h
    simp only [machine, rowsStep_stopSem h]
  · rfl

/-- Witness for C7 at a concrete stop line. -/
theorem stop_line_reevaluated_and_blocks_chain_witness :
    machine ["Semester : 2"]
        (MState.inrows (some (summaryInit "1"))
          [["ABC101", "Alg", "Theory", "30", "40", "--", "A"]] "") =
      emitOpt (some (summaryInit "1"))
          ([["ABC101", "Alg", "Theory", "30", "40", "--", "A"]] ++ flushBuf "") ++
        machine [] (MState.insum (some (summaryInit "2"))) :=
  stop_line_reevaluated_and_blocks_chain.1
    (some (summaryInit "1")) [["ABC101", "Alg", "Theory", "30", "40", "--", "A"]] ""
    "Semester : 2" [] "2" (by decide)

/-! ## Lemmas about the key-value maps -/

theorem lookup_setKV_self (m : KV) (k v : String) : lookupKV (setKV m k v) k = some v := by
  induction m with
  | nil => simp [setKV, lookupKV]
  | cons p t ih =>
    obtain ⟨a, b⟩ := p
    by_cases h : a = k
    · simp [setKV, lookupKV, h]
    · simp only [setKV, lookupKV, if_neg h]
      exact ih

theorem lookup_setKV_ne (m : KV) {k k2 : String} (h : k2 ≠ k) (v : String) :
    lookupKV (setKV m k v) k2 = lookupKV m k2 := by
  have h2 : k ≠ k2 := fun hh => h hh.symm
  induction m with
  | nil => simp [setKV, lookupKV, h2]
  | cons p t ih =>
    obtain ⟨a, b⟩ := p
    by_cases ha : a = k
    · subst ha
      simp only [setKV, if_pos rfl, lookupKV, if_neg h2]
    · simp only [setKV, if_neg ha, lookupKV]
      by_cases hb : a = k2
      · simp [hb]
      · simp only [if_neg hb]
        exact ih

/-- Counterexample to **C2** as stated: with two `SGPA :` lines before
the table header, the emitted summary holds the value of the *second*
line — the first recorded value *is* overwritten. -/
theorem summary_first_match_wins_counterexample :
    (extract_marksheet_blocks
        ["Semester : 1\nSGPA : 5.0\nSGPA : 6.1\nCode Name Type Internal External Back Paper Grade\nCSE101 X Theory 40"]).2.map
        (fun b => lookupKV b.summary "SGPA") = [some "6.1"] ∧
      (some "6.1" : Option String) ≠ some "5.0" :=
  ⟨rfl, by decide⟩

/-- **C2 (amended).** While collecting summary lines, each matching line
assigns its field unconditionally: the field holds the capture of the
*most recent* matching line, overwriting any earlier value (last match
wins, not first). -/
theorem summary_fields_last_match_wins (s : KV) (l v : String) :
    (evenOddCap l = some v → lookupKV (updateSummary s l) "Even/Odd" = some v) ∧
    (totalMarksCap l = some v → lookupKV (updateSummary s l) "Total Marks Obt." = some v) ∧
    (resultStatusCap l = some v →
      lookupKV (updateSummary s l) "Result Status" = some (stripStr v)) ∧
    (sgpaCap l = some v → lookupKV (updateSummary s l) "SGPA" = some v) := by
  refine ⟨?_, ?_, ?_, ?_⟩ <;> intro h <;> simp only [updateSummary, h]
  · cases totalMarksCap l <;> cases resultStatusCap l <;> cases sgpaCap l <;>
      simp only [] <;>
      (repeat rw [lookup_setKV_ne _ (by decide)]) <;>
      exact lookup_setKV_self _ _ _
  · cases resultStatusCap l <;> cases sgpaCap l <;>
      simp only [] <;>
      (repeat rw [lookup_setKV_ne _ (by decide)]) <;>
      exact lookup_setKV_self _ _ _
  · cases sgpaCap l <;>
      simp only [] <;>
      (repeat rw [lookup_setKV_ne _ (by decide)]) <;>
      exact lookup_setKV_self _ _ _
  · exact lookup_setKV_self _ _ _

/-- Witness for the amended C2: concrete lines for each of the four
fields. -/
theorem summary_fields_last_match_wins_witness :
    lookupKV (updateSummary (summaryInit "1") "Even/Odd : Even") "Even/Odd" = some "Even" ∧
    lookupKV (updateSummary (summaryInit "1") "Total Marks Obt. : 400") "Total Marks Obt." =
      some "400" ∧
    lookupKV (updateSummary (summaryInit "1") "Result Status : PASS") "Result Status" =
      some (stripStr "PASS") ∧
    lookupKV (updateSummary (summaryInit "1") "SGPA : 6.1") "SGPA" = some "6.1" :=
  ⟨(summary_fields_last_match_wins (summaryInit "1") "Even/Odd : Even" "Even").1 (by decide),
   (summary_fields_last_match_wins (summaryInit "1") "Total Marks Obt. : 400" "400").2.1
     (by decide),
   (summary_fields_last_match_wins (summaryInit "1") "Result Status : PASS" "PASS").2.2.1
     (by decide),
   (summary_fields_last_match_wins (summaryInit "1") "SGPA : 6.1" "6.1").2.2.2 (by decide)⟩

/-! ## The summary-shape invariant (C9) -/

/-- The keys of a summary map, in order. -/
def summaryKeys (s : KV) : List String := s.map Prod.fst

/-- The invariant of every live summary: exactly the five fixed keys, a
nonempty digit string under "Semester", and no "Total Subjects" key. -/
def SumInv (s : KV) : Prop :=
  summaryKeys s = ["Semester", "Even/Odd", "Total Marks Obt.", "Result Status", "SGPA"] ∧
  (∃ v, lookupKV s "Semester" = some v ∧ v ≠ "" ∧ isDigitsTok v = true) ∧
  lookupKV s "Total Subjects" = none

theorem keys_setKV_mem (m : KV) (k v : String) (h : k ∈ summaryKeys m) :
    summaryKeys (setKV m k v) = summaryKeys m := by
  induction m with
  | nil => simp [summaryKeys] at h
  | cons p t ih =>
    obtain ⟨a, b⟩ := p
    by_cases ha : a = k
    · simp [setKV, summaryKeys, ha]
    · simp only [summaryKeys, List.map_cons, List.mem_cons] at h
      rcases h with h | h
      · exact absurd h.symm ha
      · simp only [setKV, if_neg ha, summaryKeys, List.map_cons]
        have h2 := ih (by simpa [summaryKeys] using h)
        simp only [summaryKeys] at h2
        rw [h2]

theorem digits1_spec {cs d r} (h : digits1 cs = some (d, r)) :
    d ≠ [] ∧ d.all isDigitChar = true := by
  simp only [digits1] at h
  by_cases he : (cs.takeWhile isDigitChar).isEmpty
  · rw [if_pos he] at h
    simp at h
  · rw [if_neg he] at h
    simp only [Option.some.injEq, Prod.mk.injEq] at h
    obtain ⟨hd, -⟩ := h
    subst hd
    refine ⟨by simpa [List.isEmpty_iff] using he, ?_⟩
    rw [List.all_eq_true]
    intro c hc
    exact List.mem_takeWhile_imp hc

theorem semCapture_digits {l n : String} (h : semCapture l = some n) :
    n ≠ "" ∧ isDigitsTok n = true := by
  simp only [semCapture, Option.bind_eq_some, Option.map_eq_some'] at h
  obtain ⟨c2, -, p, hp, hn⟩ := h
  obtain ⟨d, r⟩ := p
  obtain ⟨hd, hall⟩ := digits1_spec hp
  subst hn
  constructor
  · intro hh
    rw [String.ext_iff] at hh
    exact hd hh
  · simp only [isDigitsTok, Bool.and_eq_true, Bool.not_eq_true']
    exact ⟨by simpa [List.isEmpty_iff] using hd, hall⟩

theorem SumInv_init {n : String} (h1 : n ≠ "") (h2 : isDigitsTok n = true) :
    SumInv (summaryInit n) := by
  refine ⟨rfl, ⟨n, ?_, h1, h2⟩, ?_⟩
  · simp [summaryInit, lookupKV]
  · simp [summaryInit, lookupKV]

theorem SumInv_setKV {s : KV} (hs : SumInv s) (k v : String)
    (hmem : k ∈ ["Semester", "Even/Odd", "Total Marks Obt.", "Result Status", "SGPA"])
    (h1 : ¬("Semester" = k)) (h2 : ¬("Total Subjects" = k)) :
    SumInv (setKV s k v) := by
  obtain ⟨hk, hsem, hts⟩ := hs
  refine ⟨?_, ?_, ?_⟩
  · rw [keys_setKV_mem _ _ _ (by rw [hk]; exact hmem)]
    exact hk
  · obtain ⟨w, hw⟩ := hsem
    exact ⟨w, by rw [lookup_setKV_ne _ h1]; exact hw.1, hw.2.1, hw.2.2⟩
  · rw [lookup_setKV_ne _ h2]
    exact hts

theorem SumInv_update {s : KV} (hs : SumInv s) (l : String) :
    SumInv (updateSummary s l) := by
  simp only [updateSummary]
  have s1 : SumInv (match evenOddCap l with
      | some v => setKV s "Even/Odd" v
      | none => s) := by
    cases evenOddCap l with
    | some v => exact SumInv_setKV hs _ _ (by decide) (by decide) (by decide)
    | none => exact hs
  have s2 : SumInv (match totalMarksCap l with
      | some v =>
        setKV
          (match evenOddCap l with
           | some v => setKV s "Even/Odd" v
           | none => s) "Total Marks Obt." v
      | none =>
        match evenOddCap l with
        | some v => setKV s "Even/Odd" v
        | none => s) := by
    cases totalMarksCap l with
    | some v => exact SumInv_setKV s1 _ _ (by decide) (by decide) (by decide)
    | none => exact s1
  have s3 : SumInv (match resultStatusCap l with
      | some v =>
        setKV
          (match totalMarksCap l with
           | some v =>
             setKV
               (match evenOddCap l with
                | some v => setKV s "Even/Odd" v
                | none => s) "Total Marks Obt." v
           | none =>
             match evenOddCap l with
             | some v => setKV s "Even/Odd" v
             | none => s) "Result Status" (stripStr v)
      | none =>
        match totalMarksCap l with
        | some v =>
          setKV
            (match evenOddCap l with
             | some v => setKV s "Even/Odd" v
             | none => s) "Total Marks Obt." v
        | none =>
          match evenOddCap l with
          | some v => setKV s "Even/Odd" v
          | none => s) := by
    cases resultStatusCap l with
    | some v => exact SumInv_setKV s2 _ _ (by decide) (by decide) (by decide)
    | none => exact s2
  cases sgpaCap l with
  | some v => exact SumInv_setKV s3 _ _ (by decide) (by decide) (by decide)
  | none => exact s3

theorem rowsStep_stopSem_inv {rows : List (List String)} {buf l n : String}
    (hr : rowsStep rows buf l = RowsOut.stopSem n) : semCapture l = some n := by
  cases hcs : semCapture l with
  | some m =>
    rw [rowsStep_stopSem hcs] at hr
    injection hr with h2
    rw [h2]
  | none =>
    by_cases hh : isResultHeading l
    · rw [rowsStep_stopHead hcs hh] at hr
      cases hr
    · obtain ⟨r2, b2, hnx⟩ := rowsStep_not_stop hcs (by simpa using hh) rows buf
      rw [hnx] at hr
      cases hr

/-- The state-indexed invariant carried through the scan. -/
def StOk : MState → Prop
  | MState.scanning => True
  | MState.insum os => ∀ s, os = some s → SumInv s
  | MState.inrows os _ _ => ∀ s, os = some s → SumInv s

theorem machine_SumInv (ls : List String) :
    ∀ st, StOk st → ∀ b ∈ machine ls st, SumInv b.summary := by
  induction ls with
  | nil =>
    intro st hok b hb
    cases st with
    | scanning => simp [machine] at hb
    | insum os => simp [machine] at hb
    | inrows os rows buf =>
      simp only [machine] at hb
      obtain ⟨s, hos, hbb, -⟩ := mem_emitOpt hb
      rw [hbb]
      exact hok s hos
  | cons l0 rest ih =>
    intro st hok b hb
    cases st with
    | scanning =>
      simp only [machine] at hb
      cases hsem : semCapture (stripStr l0) with
      | some n =>
        rw [hsem] at hb
        obtain ⟨h1, h2⟩ := semCapture_digits hsem
        refine ih _ ?_ b hb
        intro s hs
        cases hs
        exact SumInv_init h1 h2
      | none =>
        rw [hsem] at hb
        exact ih _ (show StOk MState.scanning from trivial) b hb
    | insum os =>
      simp only [machine] at hb
      by_cases hh : isHeaderLine (stripStr l0)
      · rw [if_pos hh] at hb
        refine ih _ ?_ b hb
        intro s hs
        exact hok s hs
      · rw [if_neg hh] at hb
        cases hsem : semCapture (stripStr l0) with
        | some n =>
          rw [hsem] at hb
          obtain ⟨h1, h2⟩ := semCapture_digits hsem
          refine ih _ ?_ b hb
          intro s hs
          cases hs
          exact SumInv_init h1 h2
        | none =>
          rw [hsem] at hb
          refine ih _ ?_ b hb
          intro s hs
          cases os with
          | none => simp at hs
          | some s0 =>
            simp only [Option.map_some', Option.some.injEq] at hs
            rw [← hs]
            exact SumInv_update (hok s0 rfl) _
    | inrows os rows buf =>
      simp only [machine] at hb
      cases hr : rowsStep rows buf (stripStr l0) with
      | next r2 b2 =>
        rw [hr] at hb
        refine ih _ ?_ b hb
        intro s hs
        exact hok s hs
      | stopSem n =>
        rw [hr] at hb
        rcases List.mem_append.1 hb with h1 | h2
        · obtain ⟨s, hos, hbb, -⟩ := mem_emitOpt h1
          rw [hbb]
          exact hok s hos
        · obtain ⟨hn1, hn2⟩ := semCapture_digits (rowsStep_stopSem_inv hr)
          refine ih _ ?_ b h2
          intro s hs
          cases hs
          exact SumInv_init hn1 hn2
      | stopHead =>
        rw [hr] at hb
        rcases List.mem_append.1 hb with h1 | h2
        · obtain ⟨s, hos, hbb, -⟩ := mem_emitOpt h1
          rw [hbb]
          exact hok s hos
        · refine ih _ ?_ b h2
          intro s hs
          simp at hs

/-- **C9.** Every emitted block's summary has exactly the five keys
"Semester", "Even/Odd", "Total Marks Obt.", "Result Status", "SGPA",
with a nonempty digit string under "Semester"; no "Total Subjects" key
is ever captured, so the guard of the soft consistency check in
`finalize_block` is never satisfied. -/
theorem summary_has_exactly_five_keys (pages : List String) (b : MarksheetBlock)
    (h : b ∈ (extract_marksheet_blocks pages).2) :
    summaryKeys b.summary =
      ["Semester", "Even/Odd", "Total Marks Obt.", "Result Status", "SGPA"] ∧
    (∃ v, lookupKV b.summary "Semester" = some v ∧ v ≠ "" ∧ isDigitsTok v = true) ∧
    lookupKV b.summary "Total Subjects" = none ∧
    totalSubjectsCheckRuns b.summary = false := by
  have hs : SumInv b.summary := by
    simp only [extract_marksheet_blocks, List.mem_flatten, List.mem_map] at h
    obtain ⟨bs, ⟨p, -, hbs⟩, hbmem⟩ := h
    rw [← hbs] at hbmem
    exact machine_SumInv _ MState.scanning (show StOk MState.scanning from trivial) b hbmem
  obtain ⟨h1, h2, h3⟩ := hs
  exact ⟨h1, h2, h3, by simp [totalSubjectsCheckRuns, h3]⟩

/-- Witness for C9 at a concrete input. -/
theorem summary_has_exactly_five_keys_witness :
    summaryKeys
        (⟨summaryInit "4", header_cols, [["KCS401", "Os", "Theory", "22", "--", "--", "--"]]⟩ :
          MarksheetBlock).summary =
      ["Semester", "Even/Odd", "Total Marks Obt.", "Result Status", "SGPA"] := by
  have hm :
      (⟨summaryInit "4", header_cols, [["KCS401", "Os", "Theory", "22", "--", "--", "--"]]⟩ :
          MarksheetBlock)
        ∈ (extract_marksheet_blocks
            ["Semester : 4\nCode Name Type Internal External Back Paper Grade\nKCS401 Os Theory 22"]).2 := by
    have he :
        (extract_marksheet_blocks
            ["Semester : 4\nCode Name Type Internal External Back Paper Grade\nKCS401 Os Theory 22"]).2 =
          [⟨summaryInit "4", header_cols, [["KCS401", "Os", "Theory", "22", "--", "--", "--"]]⟩] := rfl
    rw [he]
    exact List.mem_singleton.2 rfl
  exact (summary_has_exactly_five_keys _ _ hm).1

/-! ## General-info assembly properties (C8) -/

theorem mem_addEntry {p : String × String} {l v : String} {alw : Bool}
    (h : p ∈ addEntry l v alw) : p = (l, v) ∧ (alw = true ∨ v ≠ "") := by
  unfold addEntry at h
  split at h
  · rename_i hc
    simp only [List.mem_singleton] at h
    refine ⟨h, ?_⟩
    simpa using hc
  · simp at h

theorem buildGeneralInfo_entries (m : KV) :
    (∀ p ∈ buildGeneralInfo m,
       (p.2 = "" → p.1 = "Total Marks Obt. :" ∨ p.1 = "SGPA :") ∧
       p.1 ≠ "Father\x27s Name" ∧ p.1 ≠ "Session" ∧ p.1 ≠ "Result Status") ∧
    (∃ v, ("Total Marks Obt. :", v) ∈ buildGeneralInfo m) ∧
    (∃ v, ("SGPA :", v) ∈ buildGeneralInfo m) := by
  refine ⟨?_, ?_, ?_⟩
  · intro p hp
    simp only [buildGeneralInfo, List.mem_append] at hp
    rcases hp with ((((((((((hp | hp) | hp) | hp) | hp) | hp) | hp) | hp) | hp) | hp) | hp) | hp
    case _ | _ | _ | _ | _ | _ | _ | _ | _ | _ =>
      obtain ⟨rfl, hcond⟩ := mem_addEntry hp
      have hv := hcond.resolve_left (by simp)
      exact ⟨fun h2 => absurd h2 hv, by simp, by simp, by simp⟩
    case _ =>
      obtain ⟨rfl, -⟩ := mem_addEntry hp
      exact ⟨fun _ => Or.inl rfl, by simp, by simp, by simp⟩
    case _ =>
      obtain ⟨rfl, -⟩ := mem_addEntry hp
      exact ⟨fun _ => Or.inr rfl, by simp, by simp, by simp⟩
  · exact ⟨(lookupKV m "Total Marks Obt.").getD "",
      by simp [buildGeneralInfo, addEntry, List.mem_append]⟩
  · exact ⟨(lookupKV m "SGPA").getD "",
      by simp [buildGeneralInfo, addEntry, List.mem_append]⟩

/-- **C8.** Every `general_info` entry has a nonempty value unless it is
one of the two always-present entries "Total Marks Obt. :" and "SGPA :",
and the labels "Father\x27s Name", "Session" and "Result Status" never
appear — even though those fields are scanned. -/
theorem general_info_entry_policy (pages : List String) :
    (∀ p ∈ (extract_marksheet_blocks pages).1,
       (p.2 = "" → p.1 = "Total Marks Obt. :" ∨ p.1 = "SGPA :") ∧
       p.1 ≠ "Father\x27s Name" ∧ p.1 ≠ "Session" ∧ p.1 ≠ "Result Status") ∧
    (∃ v, ("Total Marks Obt. :", v) ∈ (extract_marksheet_blocks pages).1) ∧
    (∃ v, ("SGPA :", v) ∈ (extract_marksheet_blocks pages).1) :=
  buildGeneralInfo_entries _

/-- Witness for C8: the always-present empty entry of the empty input is
one of the two allowed empty-valued labels. -/
theorem general_info_entry_policy_witness :
    ("Total Marks Obt. :" : String) = "Total Marks Obt. :" ∨
      ("Total Marks Obt. :" : String) = "SGPA :" :=
  ((general_info_entry_policy [""]).1 ("Total Marks Obt. :", "") (by decide)).1 rfl

/-! ## The empty-input behaviour (C10) -/

theorem flatten_map_eq_nil {α β : Type} (f : α → List β) (l : List α)
    (h : ∀ x ∈ l, f x = []) : (l.map f).flatten = [] := by
  induction l with
  | nil => rfl
  | cons a t ih =>
    simp only [List.map_cons, List.flatten_cons]
    rw [h a (List.mem_cons_self a t), ih (fun x hx => h x (List.mem_cons_of_mem _ hx))]
    rfl

/-- **C10.** When every page yields empty extracted text, the result is
exactly the two always-present entries with empty values and no blocks;
in particular the core returns normally on such input. -/
theorem empty_pages_give_only_always_entries (pages : List String)
    (h : ∀ p ∈ pages, p = "") :
    extract_marksheet_blocks pages =
      ([("Total Marks Obt. :", ""), ("SGPA :", "")], []) := by
  have h1 := flatten_map_eq_nil splitlinesStr pages (fun p hp => by rw [h p hp]; rfl)
  have h2 := flatten_map_eq_nil pageBlocks pages (fun p hp => by rw [h p hp]; rfl)
  simp only [extract_marksheet_blocks]
  rw [h1, h2]
  rfl

/-- Witness for C10 at the one-empty-page input. -/
theorem empty_pages_give_only_always_entries_witness :
    extract_marksheet_blocks [""] =
      ([("Total Marks Obt. :", ""), ("SGPA :", "")], []) :=
  empty_pages_give_only_always_entries [""] (by decide)

/-! ## Wrapped-name merging (C5) -/

/-- Counterexample to **C5** as stated: the buffer concatenation inserts
a single space (`buffer + " " + line`), so the reconstructed subject
name is "Data Struct ures", not "Data Structures". -/
theorem wrapped_name_merge_counterexample :
    ((extract_marksheet_blocks
        ["Semester : 1\nCode Name Type Internal External Back Paper Grade\nCSE101 Data Struct\nures Theory 40 50 -- A"]).2).map
        MarksheetBlock.rows =
      [[["CSE101", "Data Struct ures", "Theory", "40", "50", "--", "A"]]] ∧
    [[["CSE101", "Data Struct ures", "Theory", "40", "50", "--", "A"]]] ≠
      [[["CSE101", "Data Structures", "Theory", "40", "50", "--", "A"]]] :=
  ⟨rfl, by decide⟩

/-- **C5 (amended).** A subject name wrapped across two physical lines is
merged into exactly one row, but the join inserts a single space at the
wrap point: the two lines "CSE101 Data Struct" and
"ures Theory 40 50 -- A" produce the single row
`["CSE101", "Data Struct ures", "Theory", "40", "50", "--", "A"]`. -/
theorem wrapped_subject_name_merged_with_space :
    (extract_marksheet_blocks
        ["Semester : 1\nCode Name Type Internal External Back Paper Grade\nCSE101 Data Struct\nures Theory 40 50 -- A"]).2 =
      [⟨summaryInit "1", header_cols,
        [["CSE101", "Data Struct ures", "Theory", "40", "50", "--", "A"]]⟩] := rfl

/-! ## Row well-formedness (C3) -/

/-- Modelled from the spec: the case-sensitive Code pattern
`[A-Z]{3}[0-9]{3}` of the data-model invariant, used to compare the
spec's claim against the parser's case-insensitive behaviour. -/
def specCodeCaseSensitive (s : String) : Bool :=
  match s.data with
  | [a, b, c, d, e, f] =>
    (65 ≤ a.toNat && a.toNat ≤ 90) && (65 ≤ b.toNat && b.toNat ≤ 90)
      && (65 ≤ c.toNat && c.toNat ≤ 90)
      && isDigitChar d && isDigitChar e && isDigitChar f
  | _ => false

theorem lowerStr_idem (s : String) : lowerStr (lowerStr s) = lowerStr s := by
  apply String.ext
  simp only [lowerStr]
  exact map_lowerChar_idem _

theorem capitalizeStr_lowerStr_self (t : String) :
    capitalizeStr t = capitalizeStr (lowerStr t) :=
  capitalizeStr_congr_lower (lowerStr_idem t).symm

theorem capType_mem {t : String} (h : isTypeTok t = true) :
    capitalizeStr t ∈ ["Theory", "Practical", "Ca", "Lab", "Project", "Workshop", "Training"] := by
  simp only [isTypeTok, typeKwsLower, List.contains, List.elem_eq_mem, decide_eq_true_eq,
    List.mem_cons, List.not_mem_nil, or_false] at h
  rcases h with h | h | h | h | h | h | h <;>
  · rw [capitalizeStr_lowerStr_self t, h]
    decide

/-- What the code actually guarantees for an emitted row: the 7-tuple
shape, a Code word matching `[A-Z]{3}[0-9]{3}` case-insensitively, and a
Type equal to the Python `capitalize` of one of the seven keywords. -/
def RowOk (r : List String) : Prop :=
  ∃ c n t i e bp g, r = [c, n, t, i, e, bp, g] ∧ isCodeTok c = true ∧
    t ∈ ["Theory", "Practical", "Ca", "Lab", "Project", "Workshop", "Training"]

theorem nameLoop_shape (code : String) (ts : List String) :
    ∀ (acc : List String) (r : List String), nameLoop code acc ts = some r →
      ∃ nm t i e b g, r = [code, nm, capitalizeStr t, i, e, b, g] ∧ isTypeTok t = true := by
  induction ts with
  | nil => intro acc r h; simp [nameLoop] at h
  | cons t rest ih =>
    intro acc r h
    simp only [nameLoop] at h
    cases hb : (!acc.isEmpty && isTypeTok t) with
    | false =>
      rw [hb] at h
      simp only [if_false, Bool.false_eq_true] at h
      exact ih _ _ h
    | true =>
      rw [hb] at h
      simp only [if_true] at h
      cases hm : matchTail rest with
      | none =>
        rw [hm] at h
        exact ih _ _ h
      | some q =>
        rw [hm] at h
        obtain ⟨i, e, b, g⟩ := q
        simp only [Option.some.injEq] at h
        have ht : isTypeTok t = true := by
          have h2 := (Bool.and_eq_true _ _).mp hb
          exact h2.2
        exact ⟨joinSp acc, t, i, e, b, g, h.symm, ht⟩

theorem parse_RowOk {raw : String} {r : List String}
    (h : parse_row_to_columns raw = some r) : RowOk r := by
  simp only [parse_row_to_columns, matchRow] at h
  cases hts : tokenize raw with
  | nil => rw [hts] at h; simp at h
  | cons code rest =>
    rw [hts] at h
    simp only [] at h
    by_cases hc : isCodeTok code = true
    · rw [if_pos hc] at h
      obtain ⟨nm, t, i, e, b, g, hr, ht⟩ := nameLoop_shape code rest [] r h
      exact ⟨code, nm, capitalizeStr t, i, e, b, g, hr, hc, capType_mem ht⟩
    · rw [if_neg hc] at h
      simp at h

theorem mem_flushBuf {buf : String} {r : List String} (h : r ∈ flushBuf buf) :
    ∃ raw, parse_row_to_columns raw = some r := by
  simp only [flushBuf] at h
  split at h
  · simp at h
  · split at h
    · rename_i r0 hp
      simp only [List.mem_singleton] at h
      exact ⟨buf, by rw [hp, h]⟩
    · simp at h

theorem rowsStep_next_inv {rows : List (List String)} {buf l : String}
    {r2 : List (List String)} {b2 : String}
    (h : rowsStep rows buf l = RowsOut.next r2 b2) :
    ∀ r ∈ r2, r ∈ rows ∨ ∃ raw, parse_row_to_columns raw = some r := by
  simp only [rowsStep] at h
  cases hsem : semCapture l with
  | some n => rw [hsem] at h; cases h
  | none =>
    rw [hsem] at h
    (repeat' split at h) <;> (try cases h) <;>
      · intro r hr
        first
        | exact Or.inl hr
        | (rcases List.mem_append.1 hr with h1 | h1
           · exact Or.inl h1
           · simp only [List.mem_singleton] at h1
             subst h1
             exact Or.inr ⟨_, by assumption⟩)

/-- The per-state row invariant carried through the scan. -/
def RowsOkSt : MState → Prop
  | MState.inrows _ rows _ => ∀ r ∈ rows, RowOk r
  | _ => True

theorem machine_RowOk (ls : List String) :
    ∀ st, RowsOkSt st → ∀ b ∈ machine ls st, ∀ r ∈ b.rows, RowOk r := by
  induction ls with
  | nil =>
    intro st hok b hb r hr
    cases st with
    | scanning => simp [machine] at hb
    | insum os => simp [machine] at hb
    | inrows os rows buf =>
      simp only [machine] at hb
      obtain ⟨s, -, hbb, -⟩ := mem_emitOpt hb
      rw [hbb] at hr
      rcases List.mem_append.1 hr with h1 | h1
      · exact hok r h1
      · obtain ⟨raw, hp⟩ := mem_flushBuf h1
        exact parse_RowOk hp
  | cons l0 rest ih =>
    intro st hok b hb r hr
    cases st with
    | scanning =>
      simp only [machine] at hb
      cases hsem : semCapture (stripStr l0) with
      | some n =>
        rw [hsem] at hb
        exact ih _ (show RowsOkSt (MState.insum (some (summaryInit n))) from trivial) b hb r hr
      | none =>
        rw [hsem] at hb
        exact ih _ (show RowsOkSt MState.scanning from trivial) b hb r hr
    | insum os =>
      simp only [machine] at hb
      by_cases hh : isHeaderLine (stripStr l0)
      · rw [if_pos hh] at hb
        refine ih _ ?_ b hb r hr
        intro r0 hr0
        simp at hr0
      · rw [if_neg hh] at hb
        cases hsem : semCapture (stripStr l0) with
        | some n =>
          rw [hsem] at hb
          exact ih _ (show RowsOkSt (MState.insum (some (summaryInit n))) from trivial) b hb r hr
        | none =>
          rw [hsem] at hb
          exact ih _ (show RowsOkSt (MState.insum _) from trivial) b hb r hr
    | inrows os rows buf =>
      simp only [machine] at hb
      cases hrw : rowsStep rows buf (stripStr l0) with
      | next r2 b2 =>
        rw [hrw] at hb
        refine ih _ ?_ b hb r hr
        intro r0 hr0
        rcases rowsStep_next_inv hrw r0 hr0 with h1 | ⟨raw, hp⟩
        · exact hok r0 h1
        · exact parse_RowOk hp
      | stopSem n =>
        rw [hrw] at hb
        rcases List.mem_append.1 hb with h1 | h2
        · obtain ⟨s, -, hbb, -⟩ := mem_emitOpt h1
          rw [hbb] at hr
          rcases List.mem_append.1 hr with h3 | h3
          · exact hok r h3
          · obtain ⟨raw, hp⟩ := mem_flushBuf h3
            exact parse_RowOk hp
        · exact ih _ (show RowsOkSt (MState.insum (some (summaryInit n))) from trivial) b h2 r hr
      | stopHead =>
        rw [hrw] at hb
        rcases List.mem_append.1 hb with h1 | h2
        · obtain ⟨s, -, hbb, -⟩ := mem_emitOpt h1
          rw [hbb] at hr
          rcases List.mem_append.1 hr with h3 | h3
          · exact hok r h3
          · obtain ⟨raw, hp⟩ := mem_flushBuf h3
            exact parse_RowOk hp
        · exact ih _ (show RowsOkSt (MState.insum none) from trivial) b h2 r hr

/-- Counterexample to **C3** as stated: the row pattern carries
`re.IGNORECASE` and the type is Python-`capitalize`d, so the input row
"abc123 Math ca 40" is emitted with a lowercase Code that does not match
the case-sensitive `[A-Z]{3}[0-9]{3}` and with Type "Ca", which is not
one of the seven enum values. -/
theorem row_code_and_type_enum_counterexample :
    ((extract_marksheet_blocks
        ["Semester : 1\nCode Name Type Internal External Back Paper Grade\nabc123 Math ca 40"]).2).map
        MarksheetBlock.rows = [[["abc123", "Math", "Ca", "40", "--", "--", "--"]]] ∧
    specCodeCaseSensitive "abc123" = false ∧
    ("Ca" : String) ∉ ["Theory", "Practical", "CA", "Lab", "Project", "Workshop", "Training"] :=
  ⟨rfl, rfl, by decide⟩

/-- **C3 (amended).** Every emitted SubjectRow has the 7-field shape; its
Code matches `[A-Z]{3}[0-9]{3}` only case-insensitively (lowercase codes
are accepted and kept as-is), and its Type is the Python `capitalize` of
one of the seven keywords — i.e. one of Theory, Practical, Ca, Lab,
Project, Workshop, Training (note "Ca", not "CA"). -/
theorem emitted_rows_code_ci_and_type_capitalized (pages : List String)
    (b : MarksheetBlock) (r : List String)
    (hb : b ∈ (extract_marksheet_blocks pages).2) (hr : r ∈ b.rows) : RowOk r := by
  simp only [extract_marksheet_blocks, List.mem_flatten, List.mem_map] at hb
  obtain ⟨bs, ⟨p, -, hbs⟩, hbmem⟩ := hb
  rw [← hbs] at hbmem
  exact machine_RowOk _ MState.scanning (show RowsOkSt MState.scanning from trivial) b hbmem r hr

/-- Witness for the amended C3 at a concrete input. -/
theorem emitted_rows_code_ci_and_type_capitalized_witness :
    RowOk ["KVE501", "Ethics", "Practical", "25", "25", "--", "B"] := by
  have he :
      (extract_marksheet_blocks
          ["Semester : 5\nCode Name Type Internal External Back Paper Grade\nKVE501 Ethics Practical 25 25 -- B"]).2 =
        [⟨summaryInit "5", header_cols,
          [["KVE501", "Ethics", "Practical", "25", "25", "--", "B"]]⟩] := rfl
  have hm :
      (⟨summaryInit "5", header_cols,
          [["KVE501", "Ethics", "Practical", "25", "25", "--", "B"]]⟩ : MarksheetBlock)
        ∈ (extract_marksheet_blocks
            ["Semester : 5\nCode Name Type Internal External Back Paper Grade\nKVE501 Ethics Practical 25 25 -- B"]).2 := by
    rw [he]
    exact List.mem_singleton.2 rfl
  exact emitted_rows_code_ci_and_type_capitalized _ _ _ hm (by decide)

/-! ## The parse/format round trip (C4) -/
theorem tryGrade_len {ts : List String} {g : String} (h : tryGrade ts = some g) :
    ts.length ≤ 1 := by
  cases ts with
  | nil => exact Nat.zero_le 1
  | cons a t =>
    cases t with
    | nil => exact Nat.le_refl 1
    | cons b t2 => simp [tryGrade] at h

theorem tryBp_len {ts : List String} {p : String × String} (h : tryBp ts = some p) :
    ts.length ≤ 2 := by
  simp only [tryBp] at h
  split at h
  · rename_i q hq
    cases ts with
    | nil => simp at hq
    | cons b r =>
      simp only [] at hq
      split at hq
      · cases hg : tryGrade r with
        | none => rw [hg] at hq; simp at hq
        | some g =>
          have := tryGrade_len hg
          simp [List.length_cons]
          omega
      · simp at hq
  · rename_i hq
    cases hg : tryGrade ts with
    | none => rw [hg] at h; simp at h
    | some g =>
      have := tryGrade_len hg
      omega
theorem tryExt_len {ts : List String} {p : String × String × String} (h : tryExt ts = some p) :
    ts.length ≤ 3 := by
  simp only [tryExt] at h
  split at h
  · rename_i q hq
    cases ts with
    | nil => simp at hq
    | cons e r =>
      simp only [] at hq
      split at hq
      · cases hg : tryBp r with
        | none => rw [hg] at hq; simp at hq
        | some g =>
          have := tryBp_len hg
          simp [List.length_cons]
          omega
      · simp at hq
  · rename_i hq
    cases hg : tryBp ts with
    | none => rw [hg] at h; simp at h
    | some g =>
      have := tryBp_len hg
      omega

theorem matchTail_len {ts : List String} {q : String × String × String × String}
    (h : matchTail ts = some q) : ts.length ≤ 4 := by
  cases ts with
  | nil => simp [matchTail] at h
  | cons i rest =>
    simp only [matchTail] at h
    split at h
    · cases he : tryExt rest with
      | none => rw [he] at h; simp at h
      | some p =>
        have := tryExt_len he
        simp [List.length_cons]
        omega
    · simp at h

theorem tryGrade_inv {ts : List String} {g : String} (h : tryGrade ts = some g) :
    g = "--" ∨ isGradeTok g = true := by
  cases ts with
  | nil =>
    simp only [tryGrade, Option.some.injEq] at h
    exact Or.inl h.symm
  | cons a t =>
    cases t with
    | nil =>
      simp only [tryGrade] at h
      split at h
      · simp only [Option.some.injEq] at h
        subst h
        right
        assumption
      · simp at h
    | cons b t2 => simp [tryGrade] at h

theorem tryBp_inv {ts : List String} {b g : String} (h : tryBp ts = some (b, g)) :
    numOrDashTok b = true ∧ (g = "--" ∨ isGradeTok g = true) := by
  simp only [tryBp] at h
  split at h
  · rename_i q hq
    cases ts with
    | nil => simp at hq
    | cons b0 r =>
      simp only [] at hq
      split at hq
      · cases hg : tryGrade r with
        | none => rw [hg] at hq; simp at hq
        | some g0 =>
          rw [hg] at hq
          simp only [Option.map_some', Option.some.injEq] at hq
          subst hq
          simp only [Option.some.injEq, Prod.mk.injEq] at h
          obtain ⟨hb, hg2⟩ := h
          subst hb
          subst hg2
          exact ⟨by assumption, tryGrade_inv hg⟩
      · simp at hq
  · cases hg : tryGrade ts with
    | none => rw [hg] at h; simp at h
    | some g0 =>
      rw [hg] at h
      simp only [Option.map_some', Option.some.injEq, Prod.mk.injEq] at h
      obtain ⟨hb, hg2⟩ := h
      subst hb
      subst hg2
      exact ⟨by decide, tryGrade_inv hg⟩

theorem tryExt_inv {ts : List String} {e b g : String} (h : tryExt ts = some (e, b, g)) :
    numOrDashTok e = true ∧ numOrDashTok b = true ∧ (g = "--" ∨ isGradeTok g = true) := by
  simp only [tryExt] at h
  split at h
  · rename_i q hq
    cases ts with
    | nil => simp at hq
    | cons e0 r =>
      simp only [] at hq
      split at hq
      · cases hg : tryBp r with
        | none => rw [hg] at hq; simp at hq
        | some p0 =>
          rw [hg] at hq
          simp only [Option.map_some', Option.some.injEq] at hq
          subst hq
          simp only [Option.some.injEq, Prod.mk.injEq] at h
          obtain ⟨he, hb, hg2⟩ := h
          subst he
          obtain ⟨p1, p2⟩ := p0
          simp only [] at hb hg2
          subst hb
          subst hg2
          exact ⟨by assumption, tryBp_inv hg⟩
      · simp at hq
  · cases hg : tryBp ts with
    | none => rw [hg] at h; simp at h
    | some p0 =>
      rw [hg] at h
      simp only [Option.map_some', Option.some.injEq, Prod.mk.injEq] at h
      obtain ⟨he, hb, hg2⟩ := h
      subst he
      obtain ⟨p1, p2⟩ := p0
      simp only [] at hb hg2
      subst hb
      subst hg2
      exact ⟨by decide, tryBp_inv hg⟩

theorem matchTail_inv {ts : List String} {i e b g : String}
    (h : matchTail ts = some (i, e, b, g)) :
    ∃ tail2, ts = i :: tail2 ∧ isDigitsTok i = true ∧ numOrDashTok e = true ∧
      numOrDashTok b = true ∧ (g = "--" ∨ isGradeTok g = true) := by
  cases ts with
  | nil => simp [matchTail] at h
  | cons i0 rest =>
    simp only [matchTail] at h
    split at h
    · cases he : tryExt rest with
      | none => rw [he] at h; simp at h
      | some p =>
        rw [he] at h
        simp only [Option.map_some', Option.some.injEq, Prod.mk.injEq] at h
        obtain ⟨hi, he2, hb2, hg2⟩ := h
        subst hi
        obtain ⟨q1, q2, q3⟩ := p
        simp only [] at he2 hb2 hg2
        subst he2
        subst hb2
        subst hg2
        obtain ⟨x1, x2, x3⟩ := tryExt_inv he
        exact ⟨rest, rfl, by assumption, x1, x2, x3⟩
    · simp at h
theorem matchTail_reconstruct {i e bp g : String} (hi : isDigitsTok i = true)
    (he : numOrDashTok e = true) (hb : numOrDashTok bp = true)
    (hg : isGradeTok g = true) :
    matchTail [i, e, bp, g] = some (i, e, bp, g) := by
  simp only [matchTail, hi, if_true, tryExt, tryBp, tryGrade, he, hb, hg,
    Option.map_some']

theorem nameLoop_decomp (code : String) (ts : List String) :
    ∀ acc r, nameLoop code acc ts = some r →
      ∃ pre t tail i e b g, ts = pre ++ t :: tail ∧ (acc ++ pre) ≠ [] ∧
        isTypeTok t = true ∧ matchTail tail = some (i, e, b, g) ∧
        r = [code, joinSp (acc ++ pre), capitalizeStr t, i, e, b, g] := by
  induction ts with
  | nil => intro acc r h; simp [nameLoop] at h
  | cons t rest ih =>
    intro acc r h
    simp only [nameLoop] at h
    cases hb : (!acc.isEmpty && isTypeTok t) with
    | true =>
      rw [hb] at h
      simp only [if_true] at h
      cases hm : matchTail rest with
      | none =>
        rw [hm] at h
        obtain ⟨pre, t2, tail, i, e, b, g, h1, h2, h3, h4, h5⟩ := ih _ _ h
        refine ⟨t :: pre, t2, tail, i, e, b, g, by simp [h1], ?_, h3, h4, ?_⟩
        · simp
        · rw [h5, List.append_assoc, List.singleton_append]
      | some q =>
        rw [hm] at h
        obtain ⟨i, e, b, g⟩ := q
        simp only [Option.some.injEq] at h
        obtain ⟨hne, ht⟩ := (Bool.and_eq_true _ _).mp hb
        refine ⟨[], t, rest, i, e, b, g, rfl, ?_, ht, hm, by rw [← h]; simp⟩
        simp only [List.append_nil]
        intro hacc
        rw [hacc] at hne
        simp at hne
    | false =>
      rw [hb] at h
      simp only [Bool.false_eq_true, if_false] at h
      obtain ⟨pre, t2, tail, i, e, b, g, h1, h2, h3, h4, h5⟩ := ih _ _ h
      refine ⟨t :: pre, t2, tail, i, e, b, g, by simp [h1], ?_, h3, h4, ?_⟩
      · simp
      · rw [h5, List.append_assoc, List.singleton_append]

theorem nameLoop_reconstruct (code ty i e bp g : String)
    (hty : isTypeTok ty = true) (hi : isDigitsTok i = true) (he : numOrDashTok e = true)
    (hb : numOrDashTok bp = true) (hg : isGradeTok g = true) :
    ∀ (pre acc : List String), acc ++ pre ≠ [] →
      nameLoop code acc (pre ++ [ty, i, e, bp, g]) =
        some [code, joinSp (acc ++ pre), capitalizeStr ty, i, e, bp, g] := by
  intro pre
  induction pre with
  | nil =>
    intro acc hne
    simp only [List.append_nil] at hne ⊢
    have hae : acc.isEmpty = false := by
      cases acc with
      | nil => exact absurd rfl hne
      | cons a t => rfl
    simp only [List.nil_append, nameLoop, hae, hty, Bool.not_false, Bool.and_self, if_true,
      matchTail_reconstruct hi he hb hg]
  | cons p pre' ih =>
    intro acc hne
    have hguard : (if !acc.isEmpty && isTypeTok p
        then matchTail (pre' ++ [ty, i, e, bp, g]) else none) = none := by
      split
      · cases hmt : matchTail (pre' ++ [ty, i, e, bp, g]) with
        | none => rfl
        | some q =>
          have hlen := matchTail_len hmt
          rw [List.length_append] at hlen
          simp at hlen
      · rfl
    show nameLoop code acc (p :: (pre' ++ [ty, i, e, bp, g])) = _
    simp only [nameLoop, hguard]
    have h2 := ih (acc ++ [p]) (by simp)
    rw [List.append_assoc] at h2
    simp only [List.singleton_append] at h2
    exact h2
theorem joinWith_cons (sep : Char) (x : List Char) (xs : List (List Char)) :
    joinWithChars sep (x :: xs) =
      x ++ (match xs with
            | [] => []
            | _ :: _ => sep :: joinWithChars sep xs) := by
  cases xs with
  | nil => simp [joinWithChars]
  | cons y ys => rfl

theorem joinWith_flatten_head (sep : Char) :
    ∀ (ws rs : List (List Char)), ws ≠ [] →
      joinWithChars sep (joinWithChars sep ws :: rs) = joinWithChars sep (ws ++ rs) := by
  intro ws
  induction ws with
  | nil => intro rs h; exact absurd rfl h
  | cons w ws' ih =>
    intro rs h
    cases ws' with
    | nil =>
      cases rs with
      | nil => rfl
      | cons r rs2 => rfl
    | cons w2 ws2 =>
      cases rs with
      | nil =>
        simp only [List.append_nil]
        rfl
      | cons r rs2 =>
        have h1 : joinWithChars sep ((w :: w2 :: ws2)) = w ++ sep :: joinWithChars sep (w2 :: ws2) := rfl
        rw [h1]
        have h2 : joinWithChars sep ((w ++ sep :: joinWithChars sep (w2 :: ws2)) :: r :: rs2) =
            (w ++ sep :: joinWithChars sep (w2 :: ws2)) ++ sep :: joinWithChars sep (r :: rs2) := rfl
        rw [h2]
        have h3 := ih (r :: rs2) (by simp)
        have h4 : joinWithChars sep (joinWithChars sep (w2 :: ws2) :: r :: rs2) =
            joinWithChars sep (w2 :: ws2) ++ sep :: joinWithChars sep (r :: rs2) := rfl
        rw [h4] at h3
        have h5 : joinWithChars sep ((w :: w2 :: ws2) ++ r :: rs2) =
            w ++ sep :: joinWithChars sep ((w2 :: ws2) ++ r :: rs2) := rfl
        rw [h5, ← h3]
        simp [List.append_assoc]

theorem joinWith_expand (sep : Char) :
    ∀ (as ws rs : List (List Char)), ws ≠ [] →
      joinWithChars sep (as ++ joinWithChars sep ws :: rs) =
        joinWithChars sep (as ++ (ws ++ rs)) := by
  intro as
  induction as with
  | nil => intro ws rs h; exact joinWith_flatten_head sep ws rs h
  | cons a as' ih =>
    intro ws rs h
    have hne1 : as' ++ joinWithChars sep ws :: rs ≠ [] := by simp
    have hne2 : as' ++ (ws ++ rs) ≠ [] := by
      cases ws with
      | nil => exact absurd rfl h
      | cons w ws2 => simp
    rw [List.cons_append, joinWith_cons]
    rw [List.cons_append, joinWith_cons]
    cases hx : as' ++ joinWithChars sep ws :: rs with
    | nil => exact absurd hx hne1
    | cons x xs =>
      cases hy : as' ++ (ws ++ rs) with
      | nil => exact absurd hy hne2
      | cons y ys =>
        simp only []
        rw [← hx, ← hy, ih ws rs h]
/-- A word produced by whitespace splitting: nonempty and whitespace-free. -/
def GoodTokC (w : List Char) : Prop := w ≠ [] ∧ ∀ c ∈ w, isWs c = false

theorem splitWs_cons2_nil {c d : Char} {t2 : List Char} (hc : isWs c = false)
    (hsp : splitWsChars (d :: t2) = []) :
    splitWsChars (c :: d :: t2) = [[c]] := by
  simp [splitWsChars, hc, hsp]

theorem splitWs_cons2_ws {c d : Char} {t2 : List Char} (hc : isWs c = false)
    {w0 : List Char} {ws : List (List Char)} (hsp : splitWsChars (d :: t2) = w0 :: ws)
    (hd : isWs d = true) :
    splitWsChars (c :: d :: t2) = [c] :: w0 :: ws := by
  simp [splitWsChars, hc, hsp, hd]

theorem splitWs_cons2_nonws {c d : Char} {t2 : List Char} (hc : isWs c = false)
    {w0 : List Char} {ws : List (List Char)} (hsp : splitWsChars (d :: t2) = w0 :: ws)
    (hd : isWs d = false) :
    splitWsChars (c :: d :: t2) = (c :: w0) :: ws := by
  simp [splitWsChars, hc, hsp, hd]

theorem splitWs_cons2_skip {c d : Char} {t2 : List Char} (hc : isWs c = true) :
    splitWsChars (c :: d :: t2) = splitWsChars (d :: t2) := by
  simp [splitWsChars, hc]

theorem splitWs_skip_ws {d : Char} (hd : isWs d = true) (t : List Char) :
    splitWsChars (d :: t) = splitWsChars t := by
  cases t with
  | nil => simp [splitWsChars, hd]
  | cons e t2 => simp [splitWsChars, hd]

theorem goodTok_single {c : Char} (hc : isWs c = false) : GoodTokC [c] := by
  refine ⟨by simp, ?_⟩
  intro x hx
  simp only [List.mem_singleton] at hx
  subst hx
  exact hc

theorem splitWs_good : ∀ cs : List Char, ∀ w ∈ splitWsChars cs, GoodTokC w := by
  intro cs
  induction cs with
  | nil => simp [splitWsChars]
  | cons c t ih =>
    cases t with
    | nil =>
      intro w hw
      simp only [splitWsChars] at hw
      split at hw
      · simp at hw
      · rename_i hc
        simp only [List.mem_singleton] at hw
        subst hw
        exact goodTok_single (by simpa using hc)
    | cons d t2 =>
      intro w hw
      by_cases hc : isWs c = true
      · rw [splitWs_cons2_skip hc] at hw
        exact ih w hw
      · have hc2 : isWs c = false := by simpa using hc
        cases hsp : splitWsChars (d :: t2) with
        | nil =>
          rw [splitWs_cons2_nil hc2 hsp] at hw
          simp only [List.mem_singleton] at hw
          subst hw
          exact goodTok_single hc2
        | cons w0 ws =>
          by_cases hd : isWs d = true
          · rw [splitWs_cons2_ws hc2 hsp hd] at hw
            simp only [List.mem_cons] at hw
            rcases hw with hw | hw | hw
            · subst hw
              exact goodTok_single hc2
            · subst hw
              exact ih w (by rw [hsp]; exact List.mem_cons_self _ _)
            · exact ih w (by rw [hsp]; exact List.mem_cons_of_mem _ hw)
          · have hd2 : isWs d = false := by simpa using hd
            rw [splitWs_cons2_nonws hc2 hsp hd2] at hw
            simp only [List.mem_cons] at hw
            rcases hw with hw | hw
            · subst hw
              have hg := ih w0 (by rw [hsp]; exact List.mem_cons_self _ _)
              refine ⟨by simp, ?_⟩
              intro x hx
              simp only [List.mem_cons] at hx
              rcases hx with hx | hx
              · subst hx
                exact hc2
              · exact hg.2 x hx
            · exact ih w (by rw [hsp]; exact List.mem_cons_of_mem _ hw)

theorem splitWs_word : ∀ (w cs : List Char), w ≠ [] → (∀ c ∈ w, isWs c = false) →
    (cs = [] ∨ ∃ d t, cs = d :: t ∧ isWs d = true) →
    splitWsChars (w ++ cs) = w :: splitWsChars cs := by
  intro w
  induction w with
  | nil => intro cs h; exact absurd rfl h
  | cons a w2 ih =>
    intro cs hne hnws hcs
    have ha : isWs a = false := hnws a (List.mem_cons_self _ _)
    cases w2 with
    | nil =>
      rcases hcs with hcs | ⟨d, t, hcs, hd⟩
      · subst hcs
        simp [splitWsChars, ha]
      · subst hcs
        simp only [List.singleton_append]
        cases hsp : splitWsChars (d :: t) with
        | nil =>
          rw [splitWs_cons2_nil ha hsp]
        | cons w0 ws =>
          rw [splitWs_cons2_ws ha hsp hd]
    | cons b w3 =>
      have hb : isWs b = false := hnws b (by simp)
      have h2 := ih cs (by simp) (fun c hc => hnws c (List.mem_cons_of_mem _ hc)) hcs
      simp only [List.cons_append] at h2 ⊢
      rw [splitWs_cons2_nonws ha h2 hb]

theorem splitWs_join : ∀ ws : List (List Char), (∀ w ∈ ws, GoodTokC w) →
    splitWsChars (joinWithChars ' ' ws) = ws := by
  intro ws
  induction ws with
  | nil => intro h; rfl
  | cons w ws2 ih =>
    intro h
    have hw := h w (List.mem_cons_self _ _)
    cases ws2 with
    | nil =>
      have h1 : joinWithChars ' ' [w] = w ++ [] := by simp [joinWithChars]
      rw [h1, splitWs_word w [] hw.1 hw.2 (Or.inl rfl)]
      rfl
    | cons w2 ws3 =>
      have h1 : joinWithChars ' ' (w :: w2 :: ws3) =
          w ++ ' ' :: joinWithChars ' ' (w2 :: ws3) := rfl
      rw [h1, splitWs_word w (' ' :: joinWithChars ' ' (w2 :: ws3)) hw.1 hw.2
        (Or.inr ⟨' ', _, rfl, by decide⟩)]
      rw [splitWs_skip_ws (by decide)]
      rw [ih (fun x hx => h x (List.mem_cons_of_mem _ hx))]

theorem mk_data (s : String) : (⟨s.data⟩ : String) = s := by
  cases s
  rfl

theorem tokenize_joinSp (ts : List String) (h : ∀ s ∈ ts, GoodTokC s.data) :
    tokenize (joinSp ts) = ts := by
  simp only [tokenize, joinSp]
  rw [splitWs_join (ts.map String.data) ?hh]
  case hh =>
    intro w hw
    simp only [List.mem_map] at hw
    obtain ⟨s, hs, hws⟩ := hw
    rw [← hws]
    exact h s hs
  rw [List.map_map]
  have : (fun cs => (⟨cs⟩ : String)) ∘ String.data = id := by
    funext s
    exact mk_data s
  rw [this, List.map_id]

theorem joinSp_expand_mid (c : String) (nts rs : List String) (h : nts ≠ []) :
    joinSp (c :: joinSp nts :: rs) = joinSp (c :: (nts ++ rs)) := by
  apply String.ext
  simp only [joinSp, List.map_cons]
  have h1 : (c.data :: joinWithChars ' ' (List.map String.data nts) :: List.map String.data rs) =
      [c.data] ++ joinWithChars ' ' (List.map String.data nts) :: List.map String.data rs := rfl
  rw [h1, joinWith_expand ' ' [c.data] (nts.map String.data) (List.map String.data rs)
    (by simpa using h)]
  simp [List.map_append]

theorem isWs_of_digit {x : Char} (h : isDigitChar x = true) : isWs x = false := by
  simp only [isDigitChar, Bool.and_eq_true, decide_eq_true_eq] at h
  simp only [isWs, Bool.or_eq_false_iff, decide_eq_false_iff_not]
  omega

theorem isWs_of_letter {x : Char} (h : isAsciiLetter x = true) : isWs x = false := by
  simp only [isAsciiLetter, Bool.or_eq_true, Bool.and_eq_true, decide_eq_true_eq] at h
  simp only [isWs, Bool.or_eq_false_iff, decide_eq_false_iff_not]
  omega

theorem goodTok_digits {s : String} (h : isDigitsTok s = true) : GoodTokC s.data := by
  simp only [isDigitsTok, Bool.and_eq_true, Bool.not_eq_true', List.all_eq_true] at h
  refine ⟨?_, fun c hc => isWs_of_digit (h.2 c hc)⟩
  intro hnil
  have h1 := h.1
  rw [hnil] at h1
  simp at h1

theorem goodTok_numdash {s : String} (h : numOrDashTok s = true) : GoodTokC s.data := by
  simp only [numOrDashTok, Bool.or_eq_true] at h
  rcases h with h | h
  · exact goodTok_digits h
  · simp only [decide_eq_true_eq] at h
    subst h
    exact ⟨by decide, by decide⟩

theorem goodTok_grade {s : String} (h : isGradeTok s = true) : GoodTokC s.data := by
  simp only [isGradeTok] at h
  split at h
  · rename_i a heq
    rw [heq]
    refine ⟨by simp, ?_⟩
    intro x hx
    simp only [List.mem_singleton] at hx
    subst hx
    exact isWs_of_letter h
  · rename_i a b heq
    rw [heq]
    simp only [Bool.and_eq_true, Bool.or_eq_true, decide_eq_true_eq] at h
    refine ⟨by simp, ?_⟩
    intro x hx
    simp only [List.mem_cons, List.not_mem_nil, or_false] at hx
    rcases hx with hx | hx
    · subst hx
      exact isWs_of_letter h.1
    · subst hx
      rcases h.2 with h2 | h2
      · exact isWs_of_letter h2
      · subst h2
        decide
  · rename_i a b cc heq
    rw [heq]
    simp only [Bool.and_eq_true, decide_eq_true_eq] at h
    refine ⟨by simp, ?_⟩
    intro x hx
    simp only [List.mem_cons, List.not_mem_nil, or_false] at hx
    rcases hx with hx | hx | hx
    · subst hx
      exact isWs_of_letter h.1.1
    · subst hx
      exact isWs_of_letter h.1.2
    · subst hx
      rw [h.2]
      decide
  · simp at h

theorem goodTok_capType {t : String} (h : isTypeTok t = true) :
    GoodTokC (capitalizeStr t).data := by
  have hm := capType_mem h
  simp only [List.mem_cons, List.not_mem_nil, or_false] at hm
  rcases hm with hm | hm | hm | hm | hm | hm | hm <;>
  · rw [hm]
    exact ⟨by decide, by decide⟩

theorem isTypeTok_cap {t : String} (h : isTypeTok t = true) :
    isTypeTok (capitalizeStr t) = true := by
  simp only [isTypeTok]
  rw [lowerStr_capitalizeStr]
  exact h
theorem goodTok_code {s : String} (h : isCodeTok s = true) : GoodTokC s.data := by
  simp only [isCodeTok] at h
  split at h
  · rename_i a b c d e f heq
    rw [heq]
    simp only [Bool.and_eq_true] at h
    refine ⟨by simp, ?_⟩
    intro x hx
    simp only [List.mem_cons, List.not_mem_nil, or_false] at hx
    rcases hx with hx | hx | hx | hx | hx | hx <;> subst hx
    · exact isWs_of_letter h.1.1.1.1.1
    · exact isWs_of_letter h.1.1.1.1.2
    · exact isWs_of_letter h.1.1.1.2
    · exact isWs_of_digit h.1.1.2
    · exact isWs_of_digit h.1.2
    · exact isWs_of_digit h.2
  · simp at h

theorem tokenize_good (s : String) : ∀ w ∈ tokenize s, GoodTokC w.data := by
  intro w hw
  simp only [tokenize, List.mem_map] at hw
  obtain ⟨cs, hcs, hwc⟩ := hw
  rw [← hwc]
  exact splitWs_good _ cs hcs

/-- Modelled from the spec: re-formatting the 7 parsed fields into a row
line, separated by single spaces (the absent optional groups were
already filled with "--" by the parser). -/
def formatRowSpec (row : List String) : String := joinSp row

/-- Counterexample to **C4** as stated: parsing a row without a grade
fills the Grade with "--", but the grammar's grade group does not accept
"--" and a trailing "--" cannot be consumed, so re-parsing the formatted
canonical form fails. -/
theorem parse_format_idempotent_counterexample :
    parse_row_to_columns "CSE101 Data Theory 40" =
      some ["CSE101", "Data", "Theory", "40", "--", "--", "--"] ∧
    parse_row_to_columns
        (formatRowSpec ["CSE101", "Data", "Theory", "40", "--", "--", "--"]) = none :=
  ⟨rfl, rfl⟩

/-- **C4 (amended).** For every row text accepted by the grammar whose
Grade group is present (Grade ≠ "--"), re-formatting the 7 parsed fields
with single spaces and parsing again reconstructs the same 7 fields
exactly; when the Grade was absent the re-parse fails instead, so the
round trip holds precisely for rows with a grade. -/
theorem parse_format_roundtrip_when_grade_present (raw : String) (c n t i e bp g : String)
    (h : parse_row_to_columns raw = some [c, n, t, i, e, bp, g]) (hg : g ≠ "--") :
    parse_row_to_columns (formatRowSpec [c, n, t, i, e, bp, g]) =
      some [c, n, t, i, e, bp, g] := by
  simp only [parse_row_to_columns, matchRow] at h
  cases hts : tokenize raw with
  | nil => rw [hts] at h; simp at h
  | cons code rest =>
    rw [hts] at h
    simp only [] at h
    by_cases hcode : isCodeTok code = true
    case neg => rw [if_neg hcode] at h; simp at h
    rw [if_pos hcode] at h
    obtain ⟨pre, ty, tail, i0, e0, b0, g0, hrest, hpre, hty, hmt, hrow⟩ :=
      nameLoop_decomp code rest [] _ h
    simp only [List.nil_append] at hpre hrow
    simp only [List.cons.injEq, and_true] at hrow
    obtain ⟨hc, hn, ht, hi0, he0, hb0, hg0⟩ := hrow
    subst hc
    subst hn
    subst ht
    subst hi0
    subst he0
    subst hb0
    subst hg0
    obtain ⟨tail2, htl, hdig, hnde, hndb, hgor⟩ := matchTail_inv hmt
    have hgrade : isGradeTok g = true := by
      rcases hgor with h1 | h1
      · exact absurd h1 hg
      · exact h1
    have hgoodtok := tokenize_good raw
    rw [hts] at hgoodtok
    have hgpre : ∀ s ∈ pre, GoodTokC s.data := by
      intro s hs
      refine hgoodtok s ?_
      rw [hrest]
      exact List.mem_cons_of_mem _ (List.mem_append.2 (Or.inl hs))
    have hgcode : GoodTokC c.data := goodTok_code hcode
    have hne : pre ≠ [] := hpre
    have hfmt : tokenize (formatRowSpec [c, joinSp pre, capitalizeStr ty, i, e, bp, g]) =
        c :: (pre ++ [capitalizeStr ty, i, e, bp, g]) := by
      have hx : formatRowSpec [c, joinSp pre, capitalizeStr ty, i, e, bp, g] =
          joinSp (c :: (pre ++ [capitalizeStr ty, i, e, bp, g])) := by
        simp only [formatRowSpec]
        exact joinSp_expand_mid c pre [capitalizeStr ty, i, e, bp, g] hne
      rw [hx]
      apply tokenize_joinSp
      intro s hs
      simp only [List.mem_cons, List.mem_append] at hs
      rcases hs with hs | hs | hs
      · subst hs
        exact hgcode
      · exact hgpre s hs
      · simp only [List.mem_cons, List.not_mem_nil, or_false] at hs
        rcases hs with hs | hs | hs | hs | hs <;> subst hs
        · exact goodTok_capType hty
        · exact goodTok_digits hdig
        · exact goodTok_numdash hnde
        · exact goodTok_numdash hndb
        · exact goodTok_grade hgrade
    simp only [parse_row_to_columns, hfmt, matchRow]
    rw [if_pos hcode]
    rw [nameLoop_reconstruct c (capitalizeStr ty) i e bp g
      (isTypeTok_cap hty) hdig hnde hndb hgrade pre [] (by simpa using hne)]
    rw [capitalizeStr_idem]
    simp


/-- Witness for the amended C4 at a concrete row with a grade. -/
theorem parse_format_roundtrip_when_grade_present_witness :
    parse_row_to_columns (formatRowSpec ["CSE101", "Data", "Theory", "40", "50", "--", "A"]) =
      some ["CSE101", "Data", "Theory", "40", "50", "--", "A"] :=
  parse_format_roundtrip_when_grade_present "CSE101 Data Theory 40 50 -- A"
    "CSE101" "Data" "Theory" "40" "50" "--" "A" (by decide) (by decide)

end PdfExtract
